import Mathlib

/-!
Verification of the maze-pwa repository's maze generation engine and
application shell against its specification.

The engine (`src/app/maze.ts`) is embedded shallowly:

* JavaScript 32-bit integer operations become `Nat` arithmetic modulo
  `2 ^ 32`.
* The values the pseudo-random generator feeds into comparisons are exact
  dyadic rationals (`(out >>> 0) / 4294967296` is exact in JavaScript as
  well); all derived arithmetic on them is carried out in `Q`, an
  unreduced fraction type with positive denominators, so the embedded
  comparisons agree with exact rational arithmetic.
* Wall flags become `Bool` (`true` = wall present, mirroring the source's
  `1|0` flags) and the mutable `Cell[][]` grid becomes an immutable
  `List (List Cell)` updated functionally.
* The `seen: Set<string>` of visited cell keys becomes a `Nat` bit set
  indexed by the row-major cell key `y*W + x` (the string key `"x,y"` is
  in bijection with it on in-bounds cells, which are the only cells the
  source ever queries).
* The difficulty score `D`, whose source formula calls `Math.log2`, is
  kept out of the executable `Stats` record and reasoned about through
  the exact real-number formula in the theorems.
-/

namespace MazePWA

/-- An exact unreduced fraction.  Every value constructed below has a
positive denominator, and the comparison operations implement the exact
rational order under that convention. -/
structure Q where
  num : Int
  den : Nat
deriving DecidableEq, Repr

/-- Exact fraction addition (denominators multiply; no reduction). -/
def Q.add (a b : Q) : Q := ⟨a.num * (b.den : Int) + b.num * (a.den : Int), a.den * b.den⟩

/-- Exact fraction subtraction. -/
def Q.sub (a b : Q) : Q := ⟨a.num * (b.den : Int) - b.num * (a.den : Int), a.den * b.den⟩

/-- Exact fraction multiplication. -/
def Q.mul (a b : Q) : Q := ⟨a.num * b.num, a.den * b.den⟩

/-- `a < b` by cross-multiplication (valid for positive denominators). -/
def Q.lt (a b : Q) : Bool := a.num * (b.den : Int) < b.num * (a.den : Int)

/-- `a ≤ 0` (valid for positive denominators). -/
def Q.nonpos (a : Q) : Bool := a.num ≤ 0

/-- `⌊a⌋` as a natural number, for nonnegative `a`. -/
def Q.floorNat (a : Q) : Nat := a.num.toNat / a.den

/-- Embed a built-in rational (the type of the `g`, `b`, `tau`
parameters) as an exact fraction. -/
def Q.ofRat (r : Rat) : Q := ⟨r.num, r.den⟩

/-- The value of an exact fraction as a built-in rational. -/
def Q.toRat (a : Q) : Rat := (a.num : Rat) / (a.den : Rat)

/-- Wall side of a cell: the four flag names `n`, `s`, `e`, `w` of the
source `Cell` type. -/
inductive Side where
  | n : Side
  | s : Side
  | e : Side
  | w : Side
deriving DecidableEq, Repr

/-- `Cell = { x, y, n, s, e, w }` from `maze.ts`; a flag is `true` when
the wall is present (source value `1`). -/
structure Cell where
  x : Int
  y : Int
  n : Bool
  s : Bool
  e : Bool
  w : Bool
deriving DecidableEq, Repr

/-- Read one wall flag of a cell. -/
def Cell.get : Cell → Side → Bool
  | c, Side.n => c.n
  | c, Side.s => c.s
  | c, Side.e => c.e
  | c, Side.w => c.w

/-- Clear one wall flag of a cell (generation only ever clears flags). -/
def Cell.clear : Cell → Side → Cell
  | c, Side.n => { c with n := false }
  | c, Side.s => { c with s := false }
  | c, Side.e => { c with e := false }
  | c, Side.w => { c with w := false }

/-- `CarveStep = { x, y, nx, ny }` from `maze.ts`. -/
structure CarveStep where
  x : Int
  y : Int
  nx : Int
  ny : Int
deriving DecidableEq, Repr

/-- The numeric part of `Stats = { L, T, J, E, D }`.  `D` is a quantity
derived from these four fields (`0.7·log2(max 2 L) + 0.8·T +
0.5·J/max 1 L + 0.3·E/max 1 L`, then rounded to 3 decimals); it is
stated directly in the theorems because the source computes it with
`Math.log2`. -/
structure Stats where
  L : Nat
  T : Rat
  J : Nat
  E : Nat
deriving DecidableEq, Repr

/-- A direction entry of the source's `DIRS` table. -/
structure Dir where
  dx : Int
  dy : Int
  a : Side
  b : Side
deriving DecidableEq, Repr

/-- `DIRS` from `maze.ts`: east, west, south, north, each with the flag
it clears on the current cell (`a`) and the opposite flag on the
neighbor (`b`). -/
def DIRS : List Dir :=
  [⟨1, 0, Side.e, Side.w⟩, ⟨-1, 0, Side.w, Side.e⟩,
   ⟨0, 1, Side.s, Side.n⟩, ⟨0, -1, Side.n, Side.s⟩]

/-- `opp` from `maze.ts`. -/
def opp : Side → Side
  | Side.n => Side.s
  | Side.s => Side.n
  | Side.e => Side.w
  | Side.w => Side.e

/-- `openDeg` from `maze.ts`: number of cleared wall flags. -/
def openDeg (c : Cell) : Nat :=
  (if c.n then 0 else 1) + (if c.s then 0 else 1) +
    (if c.e then 0 else 1) + (if c.w then 0 else 1)

/-- The in-bounds test `inb` from `createMaze`. -/
def inb (W H : Nat) (x y : Int) : Bool :=
  0 ≤ x && x < (W : Int) && 0 ≤ y && y < (H : Int)

/-- The row-major cell key standing in for the source's string key
`` `${x},${y}` `` (injective on in-bounds cells, the only cells whose
keys the source ever compares). -/
def cellKey (W : Nat) (x y : Int) : Nat := y.toNat * W + x.toNat

/-- The grid `Cell[][]`, a list of `H` rows of `W` cells. -/
abbrev Grid : Type := List (List Cell)

/-- A fully walled cell, also the defensive out-of-bounds default. -/
def defaultCell : Cell := ⟨0, 0, true, true, true, true⟩

/-- Read `grid[y][x]` (out-of-bounds reads return a fully walled cell;
the source only indexes in bounds). -/
def gridGet (g : Grid) (x y : Int) : Cell :=
  if 0 ≤ x ∧ 0 ≤ y then
    (List.getD g y.toNat []).getD x.toNat defaultCell
  else defaultCell

/-- Update `grid[y][x]` in place (no-op out of bounds). -/
def gridModify (g : Grid) (x y : Int) (f : Cell → Cell) : Grid :=
  if 0 ≤ x ∧ 0 ≤ y then
    List.set g y.toNat
      ((List.getD g y.toNat []).set x.toNat (f ((List.getD g y.toNat []).getD x.toNat defaultCell)))
  else g

/-- The initial fully walled `width × height` grid built by
`createMaze`. -/
def initialGrid (W H : Nat) : Grid :=
  (List.range H).map fun y => (List.range W).map fun x =>
    ⟨Int.ofNat x, Int.ofNat y, true, true, true, true⟩

/-- One step of the `mulberry32` generator: the state advance
`t += 0x6D2B79F5` followed by the two xorshift-multiply rounds, all on
32-bit patterns (`Nat` mod `2 ^ 32`).  Returns the 32-bit output
pattern and the new state. -/
def mulberry32Step (t : Nat) : Nat × Nat :=
  let t1 := (t + 0x6D2B79F5) % 2 ^ 32
  let r0 := (Nat.xor t1 (t1 >>> 15) * Nat.lor 1 t1) % 2 ^ 32
  let r1 := Nat.xor r0 ((r0 + Nat.xor r0 (r0 >>> 7) * Nat.lor 61 r0) % 2 ^ 32)
  (Nat.xor r1 (r1 >>> 14), t1)

/-- One draw of the generator as the exact fraction `pattern / 2 ^ 32`
(the JavaScript division `(... >>> 0) / 4294967296` is exact). -/
def rnd (t : Nat) : Q × Nat :=
  let p := mulberry32Step t
  (⟨(p.1 : Int), 2 ^ 32⟩, p.2)

/-- Roulette-wheel scan of `chooseDirWeighted`: subtract weights from
`r` in order and return the first direction at which `r ≤ 0`; after the
loop the source returns the last direction. -/
def roulette (r : Q) : List (Dir × Q) → Dir
  | [] => ⟨0, -1, Side.n, Side.s⟩
  | [(d, _)] => d
  | (d, w) :: rest => if (r.sub w).nonpos then d else roulette (r.sub w) rest

/-- Weight list of `chooseDirWeighted`: base 1, plus `g` when the move
strictly decreases Manhattan distance to the goal, plus `tau` when it
repeats the previous carve direction, plus the jitter `rnd()*1e-6`; one
generator draw per direction, in `DIRS` order. -/
def dirWeights (x y : Int) (prev : Option (Int × Int)) (goal : Int × Int)
    (g tau : Q) (t : Nat) : List Dir → List (Dir × Q) × Nat
  | [] => ([], t)
  | d :: rest =>
    let baseDist := (goal.1 - x).natAbs + (goal.2 - y).natAbs
    let toward : Q :=
      if (goal.1 - (x + d.dx)).natAbs + (goal.2 - (y + d.dy)).natAbs < baseDist
      then g else ⟨0, 1⟩
    let straightW : Q :=
      match prev with
      | some p => if d.dx = p.1 ∧ d.dy = p.2 then tau else ⟨0, 1⟩
      | none => ⟨0, 1⟩
    let q := rnd t
    let restW := dirWeights x y prev goal g tau q.2 rest
    ((d, (((⟨1, 1⟩ : Q).add toward).add straightW).add (q.1.mul ⟨1, 1000000⟩)) :: restW.1,
      restW.2)

/-- `chooseDirWeighted` from `maze.ts`: weighted roulette selection
among the four directions, consuming five generator draws. -/
def chooseDirWeighted (x y : Int) (prev : Option (Int × Int))
    (goal : Int × Int) (g tau : Q) (t : Nat) : Dir × Nat :=
  let ws := dirWeights x y prev goal g tau t DIRS
  let total := ws.1.foldl (fun acc p => acc.add p.2) ⟨0, 1⟩
  let q := rnd ws.2
  (roulette (q.1.mul total) ws.1, q.2)

/-- Clear the matched wall pair of a carve from `p` in direction `d`:
flag `d.a` on the current cell and flag `d.b` on the neighbor. -/
def carveBetween (g : Grid) (p : Int × Int) (d : Dir) : Grid :=
  gridModify (gridModify g p.1 p.2 (fun c => c.clear d.a))
    (p.1 + d.dx) (p.2 + d.dy) (fun c => c.clear d.b)

/-- State of the DFS backtracker loop in `createMaze`: the tree grid,
the `seen` key set (a bit set over row-major cell keys), the cell
stack, the carve steps in reverse order, and the generator state. -/
structure CarveSt where
  tree : Grid
  seen : Nat
  stack : List (Int × Int)
  steps : List CarveStep
  t : Nat

/-- One iteration of the `while (stack.length)` loop of `createMaze`:
backtrack when the top of stack has no unvisited in-bounds neighbor,
otherwise carve into the weighted-choice direction, falling back to a
uniformly random valid candidate when the chosen direction is invalid
(out of bounds or already visited). -/
def carveStep (W H : Nat) (goal : Int × Int) (g tau : Q) (st : CarveSt) : CarveSt :=
  match st.stack with
  | [] => st
  | cur :: rest =>
    let prev : Option (Int × Int) :=
      match rest with
      | p :: _ => some (cur.1 - p.1, cur.2 - p.2)
      | [] => none
    let candidates := DIRS.filter fun d =>
      inb W H (cur.1 + d.dx) (cur.2 + d.dy) &&
        !(st.seen.testBit (cellKey W (cur.1 + d.dx) (cur.2 + d.dy)))
    if candidates = [] then { st with stack := rest }
    else
      match chooseDirWeighted cur.1 cur.2 prev goal g tau st.t with
      | (d, t1) =>
        let nx := cur.1 + d.dx
        let ny := cur.2 + d.dy
        if inb W H nx ny && !(st.seen.testBit (cellKey W nx ny)) then
          { tree := carveBetween st.tree cur d
            seen := st.seen ||| 1 <<< cellKey W nx ny
            stack := (nx, ny) :: st.stack
            steps := ⟨cur.1, cur.2, nx, ny⟩ :: st.steps
            t := t1 }
        else
          match rnd t1 with
          | (q, t2) =>
            let idx := (q.mul ⟨(candidates.length : Int), 1⟩).floorNat
            let d2 := candidates.getD idx ⟨0, -1, Side.n, Side.s⟩
            let nx2 := cur.1 + d2.dx
            let ny2 := cur.2 + d2.dy
            { tree := carveBetween st.tree cur d2
              seen := st.seen ||| 1 <<< cellKey W nx2 ny2
              stack := (nx2, ny2) :: st.stack
              steps := ⟨cur.1, cur.2, nx2, ny2⟩ :: st.steps
              t := t2 }

/-- The DFS loop, run with explicit fuel (the loop is proved to empty
its stack within the `2·W·H + 1` iterations of fuel `carvePhase`
supplies).  Implemented directly with `Nat.rec` so that kernel
reduction of the loop stays linear in the fuel. -/
def carveLoop (W H : Nat) (goal : Int × Int) (g tau : Q)
    (fuel : Nat) (st : CarveSt) : CarveSt :=
  Nat.rec (motive := fun _ => CarveSt → CarveSt)
    (fun st0 => st0)
    (fun _ ih st0 =>
      if st0.stack = [] then st0
      else ih (carveStep W H goal g tau st0))
    fuel st

/-- `start = (0, ⌊H/2⌋)` from `createMaze`. -/
def startCell (H : Nat) : Int × Int := (0, ((H / 2 : Nat) : Int))

/-- `goal = (W − 1, ⌊H/2⌋)` from `createMaze`. -/
def goalCell (W H : Nat) : Int × Int := ((W : Int) - 1, ((H / 2 : Nat) : Int))

/-- Phase 1 of `createMaze` (lines 26–79): seed the generator, build the
fully walled grid, and run the depth-first backtracker from `start`. -/
def carvePhase (W H seed : Nat) (g tau : Q) : CarveSt :=
  carveLoop W H (goalCell W H) g tau (2 * W * H + 1)
    { tree := initialGrid W H
      seen := 1 <<< cellKey W (startCell H).1 (startCell H).2
      stack := [startCell H]
      steps := []
      t := seed % 2 ^ 32 }

/-- Turn counter of `computeTreeStats`: one turn whenever consecutive
carve steps have different direction vectors. -/
def countTurns : List CarveStep → Nat
  | a :: b :: rest =>
    (if a.nx - a.x = b.nx - b.x ∧ a.ny - a.y = b.ny - b.y then 0 else 1) +
      countTurns (b :: rest)
  | _ => 0

/-- `computeTreeStats` from `maze.ts`: degree counts `J` (junctions) and
`E` (dead ends) over the tree grid, `L = treeSteps.length + 1`, and the
turn rate `T = turns / L` (`0` when `L = 0`).  This is the value on a
grid with at least one row; the source's width read `tree[0].length`
throws on a rowless grid, which `computeTreeStatsE` below models. -/
def computeTreeStats (tree : Grid) (steps : List CarveStep) : Stats :=
  let H := tree.length
  let W := (tree.headD []).length
  let cells := (List.range H).flatMap fun y =>
    (List.range W).map fun x => gridGet tree (Int.ofNat x) (Int.ofNat y)
  let J := cells.countP fun c => decide (3 ≤ openDeg c)
  let E := cells.countP fun c => decide (openDeg c = 1)
  let L := steps.length + 1
  let turns := countTurns steps
  { L := L
    T := if L = 0 then 0 else (turns : Rat) / (L : Rat)
    J := J
    E := E }

/-- The displacement of a braid wall pick (`dx`/`dy` in the braid
pass). -/
def sideDelta : Side → Int × Int
  | Side.n => (0, -1)
  | Side.s => (0, 1)
  | Side.e => (1, 0)
  | Side.w => (-1, 0)

/-- State of the braid pass: the final grid being edited, the recorded
`braidEdits`, and the generator state. -/
structure BraidSt where
  maze : Grid
  edits : List CarveStep
  t : Nat

/-- The walled-side list built by the braid pass, in source order
`n, s, e, w`. -/
def walledSides (c : Cell) : List Side :=
  (if c.n then [Side.n] else []) ++ (if c.s then [Side.s] else []) ++
    (if c.e then [Side.e] else []) ++ (if c.w then [Side.w] else [])

/-- The braid pass body for one cell (lines 89–104 of `maze.ts`): when
the cell's open-degree in the current grid is exactly 1 and a draw is
`< b`, pick a walled side uniformly; when the neighbor behind it is in
bounds, clear the wall pair and record the edit, otherwise change
nothing (the draws are consumed either way). -/
def braidCell (W H : Nat) (b : Q) (st : BraidSt) (x y : Int) : BraidSt :=
  let c := gridGet st.maze x y
  if openDeg c = 1 then
    let q := rnd st.t
    if q.1.lt b then
      let walls := walledSides c
      if walls = [] then { st with t := q.2 }
      else
        let q2 := rnd q.2
        let idx := (q2.1.mul ⟨(walls.length : Int), 1⟩).floorNat
        let wSide := walls.getD idx Side.n
        let del := sideDelta wSide
        let nx := x + del.1
        let ny := y + del.2
        if inb W H nx ny then
          { maze := gridModify (gridModify st.maze x y (fun cc => cc.clear wSide))
              nx ny (fun cc => cc.clear (opp wSide))
            edits := st.edits ++ [⟨x, y, nx, ny⟩]
            t := q2.2 }
        else { st with t := q2.2 }
    else { st with t := q.2 }
  else st

/-- The braid pass of `createMaze` (lines 85–106): only when `b > 0`,
scan all cells in row-major order (the clone of the tree grid is the
identity in this functional embedding). -/
def braidPhase (W H : Nat) (b : Q) (tree : Grid) (t : Nat) : BraidSt :=
  if (⟨0, 1⟩ : Q).lt b then
    (List.range H).foldl
      (fun st y => (List.range W).foldl
        (fun st x => braidCell W H b st (Int.ofNat x) (Int.ofNat y)) st)
      { maze := tree, edits := [], t := t }
  else { maze := tree, edits := [], t := t }

/-- `MazeParameters`: `{ width, height, seed, g, b, tau }`. -/
structure MazeParams where
  width : Nat
  height : Nat
  seed : Nat
  g : Rat
  b : Rat
  tau : Rat
deriving DecidableEq, Repr

/-- `MazeResult` from `maze.ts` (without the derived `D` component of
`stats`, see `Stats`). -/
structure MazeResult where
  maze : Grid
  treeSteps : List CarveStep
  braidEdits : List CarveStep
  stats : Stats
  start : Int × Int
  goal : Int × Int

/-- `createMaze` from `maze.ts`: carve the spanning tree, compute the
stats on the tree only, then clone the tree and apply the braid pass. -/
def createMaze (p : MazeParams) : MazeResult :=
  let fin := carvePhase p.width p.height p.seed (Q.ofRat p.g) (Q.ofRat p.tau)
  let treeSteps := fin.steps.reverse
  let stats := computeTreeStats fin.tree treeSteps
  let br := braidPhase p.width p.height (Q.ofRat p.b) fin.tree fin.t
  { maze := br.maze
    treeSteps := treeSteps
    braidEdits := br.edits
    stats := stats
    start := startCell p.height
    goal := goalCell p.width p.height }

/-- `computeTreeStats` with the source's error path: the width read
`tree[0].length` (`maze.ts` line 175) throws a `TypeError` when the
grid has no rows (`tree[0]` is `undefined`), so the computation is
fallible; on a grid with at least one row it returns the value of
`computeTreeStats` above. -/
def computeTreeStatsE (tree : Grid) (steps : List CarveStep) : Except Unit Stats :=
  match tree with
  | [] => Except.error ()
  | _ :: _ => Except.ok (computeTreeStats tree steps)

/-- `createMaze` with the source's error path: the stats computation
runs right after the carve loop and before the braid pass, and a
`TypeError` thrown there (grid with no rows) aborts the call, so no
result is returned.  On every other input the call returns exactly the
total embedding's result. -/
def createMazeE (p : MazeParams) : Except Unit MazeResult :=
  let fin := carvePhase p.width p.height p.seed (Q.ofRat p.g) (Q.ofRat p.tau)
  let treeSteps := fin.steps.reverse
  match computeTreeStatsE fin.tree treeSteps with
  | Except.error e => Except.error e
  | Except.ok stats =>
    let br := braidPhase p.width p.height (Q.ofRat p.b) fin.tree fin.t
    Except.ok
      { maze := br.maze
        treeSteps := treeSteps
        braidEdits := br.edits
        stats := stats
        start := startCell p.height
        goal := goalCell p.width p.height }

/-! ### Derived notions used by the verification -/

/-- Clearing one wall pair: the side `s` of cell `(x, y)` and the
matching opposite side of the neighbor behind it.  Both the DFS carve
(`carveBetween`) and a braid edit are instances of this operation. -/
def clearPair (g : Grid) (x y : Int) (sd : Side) : Grid :=
  gridModify (gridModify g x y (fun c => c.clear sd))
    (x + (sideDelta sd).1) (y + (sideDelta sd).2) (fun c => c.clear (opp sd))

/-- The grid is a list of `H` rows of `W` cells. -/
def gridShape (W H : Nat) (g : Grid) : Prop :=
  g.length = H ∧ ∀ row ∈ g, row.length = W

/-- Wall-pair symmetry: every cleared wall flag points at an in-bounds
neighbor whose opposite flag is also cleared.  (Out-of-bounds reads are
fully walled, so the statement ranges over all coordinates.) -/
def WallSym (W H : Nat) (g : Grid) : Prop :=
  ∀ (x y : Int) (sd : Side), (gridGet g x y).get sd = false →
    inb W H (x + (sideDelta sd).1) (y + (sideDelta sd).2) = true ∧
      (gridGet g (x + (sideDelta sd).1) (y + (sideDelta sd).2)).get (opp sd) = false

/-- The number of mutually open neighbors of cell `(x, y)`: directions
whose flag is cleared, whose target is in bounds, and whose target's
opposite flag is cleared. -/
def mutualOpenCount (W H : Nat) (g : Grid) (x y : Int) : Nat :=
  (DIRS.filter fun d =>
    !(gridGet g x y).get d.a && inb W H (x + d.dx) (y + d.dy) &&
      !(gridGet g (x + d.dx) (y + d.dy)).get d.b).length

/-- The number of visited in-bounds cell keys in a `seen` bit set. -/
def seenCount (W H : Nat) (mask : Nat) : Nat :=
  ((Finset.range (W * H)).filter fun k => mask.testBit k).card

/-- Termination measure of the DFS loop: each iteration strictly
decreases it. -/
def loopMeasure (W H : Nat) (st : CarveSt) : Nat :=
  2 * (W * H - seenCount W H st.seen) + st.stack.length

/-- The inductive invariant of the DFS backtracker loop. -/
structure LoopInv (W H : Nat) (st : CarveSt) : Prop where
  stack_seen : ∀ c ∈ st.stack, st.seen.testBit (cellKey W c.1 c.2) = true
  stack_cells : ∀ c ∈ st.stack, inb W H c.1 c.2 = true ∨ c = startCell H
  stack_nodup : st.stack.Nodup
  steps_count : st.steps.length + 1 = seenCount W H st.seen
  closure : ∀ (x y : Int), inb W H x y = true →
    st.seen.testBit (cellKey W x y) = true → (x, y) ∉ st.stack →
    ∀ d ∈ DIRS, inb W H (x + d.dx) (y + d.dy) = true →
      st.seen.testBit (cellKey W (x + d.dx) (y + d.dy)) = true
  grid_shape : gridShape W H st.tree
  grid_sym : WallSym W H st.tree

/-! ### The difficulty score -/

/-- The difficulty score `D` of `computeTreeStats` as an exact real
number: `0.7·log2(max 2 L) + 0.8·T + 0.5·(J / max 1 L) +
0.3·(E / max 1 L)`.  The source computes this with IEEE-754 doubles and
`Math.log2` and then rounds to 3 decimals; the theorems below reason
about the exact value. -/
noncomputable def difficultyD (s : Stats) : ℝ :=
  7 / 10 * Real.logb 2 (max 2 (s.L : ℝ)) + 4 / 5 * (s.T : ℝ) +
    1 / 2 * ((s.J : ℝ) / max 1 (s.L : ℝ)) + 3 / 10 * ((s.E : ℝ) / max 1 (s.L : ℝ))

/-- The fixed parameter set of the regression test `stats.spec.ts`. -/
def testParams : MazeParams := ⟨19, 19, 42, 3 / 10, 15 / 100, 2 / 5⟩

/-! ### The braid body as the spec describes it, for comparison -/

/-- The braid body as the spec's words describe it: a dead end passing
the draw always has its picked wall pair cleared and the edit recorded
(no in-bounds check on the picked side's neighbor; the out-of-bounds
half of the pair is a no-op). Compare `braidCell`, translated from the
source, which skips the whole edit when the pick faces out of the
grid. -/
def braidCellClaimed (W H : Nat) (b : Q) (st : BraidSt) (x y : Int) : BraidSt :=
  let c := gridGet st.maze x y
  if openDeg c = 1 then
    let q := rnd st.t
    if q.1.lt b then
      let walls := walledSides c
      if walls = [] then { st with t := q.2 }
      else
        let q2 := rnd q.2
        let idx := (q2.1.mul ⟨(walls.length : Int), 1⟩).floorNat
        let wSide := walls.getD idx Side.n
        let del := sideDelta wSide
        let nx := x + del.1
        let ny := y + del.2
        { maze := gridModify (gridModify st.maze x y (fun cc => cc.clear wSide))
            nx ny (fun cc => cc.clear (opp wSide))
          edits := st.edits ++ [⟨x, y, nx, ny⟩]
          t := q2.2 }
    else { st with t := q.2 }
  else st

/-- The row-major scan of `braidCellClaimed`, mirroring `braidPhase`. -/
def braidPhaseClaimed (W H : Nat) (b : Q) (tree : Grid) (t : Nat) : BraidSt :=
  if (⟨0, 1⟩ : Q).lt b then
    (List.range H).foldl
      (fun st y => (List.range W).foldl
        (fun st x => braidCellClaimed W H b st (Int.ofNat x) (Int.ofNat y)) st)
      { maze := tree, edits := [], t := t }
  else { maze := tree, edits := [], t := t }

/-! ### The orchestrator's view of the engine's result record -/

/-- The field names of the record `createMaze` returns (`maze.ts` lines
6–18 and 110): exactly the fields of `MazeResult`. -/
def mazeResultFields : List String :=
  ["maze", "treeSteps", "braidEdits", "stats", "start", "goal"]

/-- The field names `MazeView`'s recomputation destructures from
`createMaze(params)` (`MazeView.tsx` line 45:
`const { maze, stats, steps } = createMaze(params)`; `steps.length` is
then read unconditionally). -/
def mazeViewReads : List String := ["maze", "stats", "steps"]

/-! ### The persistence layer and the save/load handlers of `App.tsx` -/

/-- A raw `localStorage` value: either unparseable text (on which
`JSON.parse` throws) or a parsed value. -/
inductive RawVal (α : Type) where
  | malformed : RawVal α
  | valid : α → RawVal α
deriving DecidableEq

/-- One `localStorage` key: its current contents (`none` = missing key)
and whether `setItem` throws (quota exceeded or storage disabled). -/
structure Storage (α : Type) where
  contents : Option (RawVal α)
  setThrows : Bool
deriving DecidableEq

/-- `localStorage.setItem` with a JSON-serialised value: fails when the
storage layer throws, otherwise replaces the key's contents. -/
def setItem {α : Type} (s : Storage α) (v : α) : Except Unit (Storage α) :=
  if s.setThrows then Except.error ()
  else Except.ok { s with contents := some (RawVal.valid v) }

/-- The persisted `Settings` record of `App.tsx` (lines 17–26). -/
structure AppSettings where
  seed : Nat
  width : Nat
  height : Nat
  g : Rat
  b : Rat
  tau : Rat
  controlsOpen : Bool
  lockSize : Bool
deriving DecidableEq

/-- `loadSettings` (`App.tsx` lines 28–34): a missing key returns
`null`, and the surrounding `try`/`catch` maps a `JSON.parse` failure
to `null` as well. -/
def loadSettings (s : Storage AppSettings) : Option AppSettings :=
  match s.contents with
  | none => none
  | some RawVal.malformed => none
  | some (RawVal.valid v) => some v

/-- `saveSettings` (`App.tsx` lines 36–38): the `try`/`catch` swallows
a storage failure, leaving the store unchanged. -/
def saveSettings (s : Storage AppSettings) (v : AppSettings) : Storage AppSettings :=
  match setItem s v with
  | Except.ok s2 => s2
  | Except.error _ => s

/-- `SavedMaze` (`App.tsx` lines 40–45): `params` holds the six
generation parameters, modelled by the same record `createMaze`
takes. -/
structure SavedMaze where
  id : String
  name : String
  params : MazeParams
  createdAt : Nat
deriving DecidableEq

/-- `loadSaved` (`App.tsx` line 48): a missing key or a parse failure
gives the empty list (the `try`/`catch` swallows the exception). -/
def loadSaved (s : Storage (List SavedMaze)) : List SavedMaze :=
  match s.contents with
  | none => []
  | some RawVal.malformed => []
  | some (RawVal.valid l) => l

/-- `saveAll` (`App.tsx` line 49): a bare `localStorage.setItem` with
no `try`/`catch` — a storage failure propagates to the caller. -/
def saveAll (s : Storage (List SavedMaze)) (l : List SavedMaze) :
    Except Unit (Storage (List SavedMaze)) :=
  setItem s l

/-- The part of the `App` component state the save/load handlers
touch. -/
structure AppState where
  width : Nat
  height : Nat
  seed : Nat
  g : Rat
  b : Rat
  tau : Rat
  lockSize : Bool
  saved : List SavedMaze
  selectedId : Option String
  saveName : String
deriving DecidableEq

/-- `setWidth` (`App.tsx` line 164): coerce to odd (`w%2? w : w+1`)
and, when `lockSize` is on, drag the height along. -/
def setWidth (st : AppState) (w : Nat) : AppState :=
  let odd := if w % 2 = 1 then w else w + 1
  if st.lockSize then { st with width := odd, height := odd }
  else { st with width := odd }

/-- `setHeight` (`App.tsx` line 165), symmetric to `setWidth`. -/
def setHeight (st : AppState) (h : Nat) : AppState :=
  let odd := if h % 2 = 1 then h else h + 1
  if st.lockSize then { st with width := odd, height := odd }
  else { st with height := odd }

/-- `handleSave` (`App.tsx` lines 122–131): append a new entry holding
the current six parameters and select it.  The fresh id from `uid()`
and the timestamp from `Date.now()` enter as arguments; the `saveAll`
call on the updated list is the separate `saveAll` above. -/
def handleSave (st : AppState) (idv : String) (now : Nat) : AppState :=
  let name := if st.saveName.trim = "" then "Maze " ++ toString (st.saved.length + 1)
    else st.saveName.trim
  { st with
    saved := st.saved ++
      [⟨idv, name, ⟨st.width, st.height, st.seed, st.g, st.b, st.tau⟩, now⟩]
    selectedId := some idv }

/-- `handleLoad` (`App.tsx` lines 133–143): look the entry up by id,
restore its parameters through `setWidth`/`setHeight` and the plain
setters, and select it.  A missing id changes nothing. -/
def handleLoad (st : AppState) (idv : String) : AppState :=
  match st.saved.find? (fun m => m.id == idv) with
  | none => st
  | some m =>
    let st1 := setWidth st m.params.width
    let st2 := setHeight st1 m.params.height
    { st2 with
      seed := m.params.seed
      g := m.params.g
      b := m.params.b
      tau := m.params.tau
      selectedId := some idv }

theorem stats_testParams :
    (createMaze testParams).stats = ⟨361, 211 / 361, 37, 40⟩ := by decide!

theorem two_pow_lt_361_pow : (2 : Nat) ^ 84958 < 361 ^ 10000 := by decide!

theorem pow_361_lt_two_pow : (361 : Nat) ^ 10000 < 2 ^ 84959 := by decide!

/-- `log2 361` lies strictly between `8.4958` and `8.4959`. -/
theorem logb_two_361_bounds :
    (84958 / 10000 : ℝ) < Real.logb 2 361 ∧ Real.logb 2 361 < (84959 / 10000 : ℝ) := by
  have h1 : ((2 : ℝ)) ^ (84958 : ℕ) < (361 : ℝ) ^ (10000 : ℕ) := by
    exact_mod_cast two_pow_lt_361_pow
  have h2 : ((361 : ℝ)) ^ (10000 : ℕ) < (2 : ℝ) ^ (84959 : ℕ) := by
    exact_mod_cast pow_361_lt_two_pow
  have hb : (1 : ℝ) < 2 := by norm_num
  have g1 := Real.logb_lt_logb hb (by positivity) h1
  have g2 := Real.logb_lt_logb hb (by positivity) h2
  rw [Real.logb_pow, Real.logb_pow, Real.logb_self_eq_one hb] at g1 g2
  push_cast at g1 g2
  constructor <;> linarith

/-! ### Basic lemmas about the loop ingredients -/

theorem carveLoop_zero (W H : Nat) (goal : Int × Int) (g tau : Q)
    (st : CarveSt) : carveLoop W H goal g tau 0 st = st := rfl

theorem carveLoop_succ (W H : Nat) (goal : Int × Int) (g tau : Q)
    (fuel : Nat) (st : CarveSt) :
    carveLoop W H goal g tau (fuel + 1) st =
      if st.stack = [] then st
      else carveLoop W H goal g tau fuel (carveStep W H goal g tau st) := rfl

theorem mulberry32Step_fst_lt (t : Nat) : (mulberry32Step t).1 < 2 ^ 32 := by
  have key : ∀ r0 x : Nat, r0 < 2 ^ 32 → x < 2 ^ 32 →
      Nat.xor (Nat.xor r0 x) (Nat.xor r0 x >>> 14) < 2 ^ 32 := by
    intro r0 x h1 h2
    have hr1 : Nat.xor r0 x < 2 ^ 32 := Nat.xor_lt_two_pow h1 h2
    have hs : Nat.xor r0 x >>> 14 < 2 ^ 32 := by
      rw [Nat.shiftRight_eq_div_pow]
      exact Nat.lt_of_le_of_lt (Nat.div_le_self _ _) hr1
    exact Nat.xor_lt_two_pow hr1 hs
  exact key _ _ (Nat.mod_lt _ (by norm_num)) (Nat.mod_lt _ (by norm_num))

/-- A generator draw multiplied by a positive length `n` has floor below
`n` (the draw is an exact fraction in `[0, 1)`). -/
theorem rnd_mul_floorNat_lt (t : Nat) (n : Nat) (hn : 0 < n) :
    (((rnd t).1).mul ⟨(n : Int), 1⟩).floorNat < n := by
  rcases h : mulberry32Step t with ⟨v, t1⟩
  have hv : v < 2 ^ 32 := by have := mulberry32Step_fst_lt t; rwa [h] at this
  have hrnd : (rnd t).1 = ⟨(v : Int), 2 ^ 32⟩ := by
    simp [rnd, h]
  rw [hrnd]
  show ((((v : Int)) * (n : Int)).toNat / (2 ^ 32 * 1)) < n
  have hcast : ((v : Int) * (n : Int)).toNat = v * n := by
    rw [← Int.natCast_mul, Int.toNat_natCast]
  rw [hcast, Nat.mul_one]
  rw [Nat.div_lt_iff_lt_mul (by norm_num : (0:Nat) < 2 ^ 32)]
  calc v * n < 2 ^ 32 * n := (Nat.mul_lt_mul_right hn).mpr hv
    _ = n * 2 ^ 32 := Nat.mul_comm _ _

theorem testBit_insertKey (m k i : Nat) :
    (m ||| 1 <<< k).testBit i = (m.testBit i || decide (k = i)) := by
  rw [Nat.testBit_or, Nat.one_shiftLeft, Nat.testBit_two_pow]

theorem cellKey_lt (W H : Nat) (x y : Int) (h : inb W H x y = true) :
    cellKey W x y < W * H := by
  simp only [inb, Bool.and_eq_true, decide_eq_true_eq] at h
  obtain ⟨⟨⟨hx0, hxW⟩, hy0⟩, hyH⟩ := h
  have hxn : x.toNat < W := by omega
  have hyn : y.toNat < H := by omega
  calc cellKey W x y = y.toNat * W + x.toNat := rfl
    _ < y.toNat * W + W := by omega
    _ = (y.toNat + 1) * W := by ring
    _ ≤ H * W := Nat.mul_le_mul_right _ (by omega)
    _ = W * H := Nat.mul_comm _ _

theorem cellKey_inj (W H : Nat) (x y x' y' : Int)
    (h : inb W H x y = true) (h' : inb W H x' y' = true)
    (heq : cellKey W x y = cellKey W x' y') : x = x' ∧ y = y' := by
  simp only [inb, Bool.and_eq_true, decide_eq_true_eq] at h h'
  obtain ⟨⟨⟨hx0, hxW⟩, hy0⟩, hyH⟩ := h
  obtain ⟨⟨⟨hx0', hxW'⟩, hy0'⟩, hyH'⟩ := h'
  have hxn : x.toNat < W := by omega
  have hxn' : x'.toNat < W := by omega
  unfold cellKey at heq
  have hmod : (y.toNat * W + x.toNat) % W = (y'.toNat * W + x'.toNat) % W := by rw [heq]
  have hdiv : (y.toNat * W + x.toNat) / W = (y'.toNat * W + x'.toNat) / W := by rw [heq]
  rw [Nat.add_comm (y.toNat * W), Nat.add_comm (y'.toNat * W)] at hmod hdiv
  rw [Nat.add_mul_mod_self_right, Nat.add_mul_mod_self_right] at hmod
  rw [Nat.add_mul_div_right _ _ (by omega : 0 < W),
    Nat.add_mul_div_right _ _ (by omega : 0 < W)] at hdiv
  rw [Nat.mod_eq_of_lt hxn, Nat.mod_eq_of_lt hxn'] at hmod
  rw [Nat.div_eq_of_lt hxn, Nat.div_eq_of_lt hxn'] at hdiv
  omega

theorem seenCount_le (W H : Nat) (mask : Nat) : seenCount W H mask ≤ W * H := by
  calc seenCount W H mask ≤ (Finset.range (W * H)).card := Finset.card_filter_le _ _
    _ = W * H := Finset.card_range _

theorem seenCount_insert (W H : Nat) (mask k : Nat) (hk : k < W * H)
    (hnew : mask.testBit k = false) :
    seenCount W H (mask ||| 1 <<< k) = seenCount W H mask + 1 := by
  unfold seenCount
  have hset : ((Finset.range (W * H)).filter fun i => (mask ||| 1 <<< k).testBit i) =
      insert k ((Finset.range (W * H)).filter fun i => mask.testBit i) := by
    ext i
    simp only [Finset.mem_filter, Finset.mem_insert, Finset.mem_range, testBit_insertKey]
    constructor
    · rintro ⟨hi, hbit⟩
      rcases Bool.or_eq_true_iff.mp hbit with hb | hb
      · exact Or.inr ⟨hi, hb⟩
      · exact Or.inl (decide_eq_true_eq.mp hb).symm
    · rintro (rfl | ⟨hi, hbit⟩)
      · exact ⟨hk, by simp⟩
      · exact ⟨hi, by simp [hbit]⟩
  rw [hset, Finset.card_insert_of_not_mem]
  simp [hnew]

theorem seenCount_singleton (W H k : Nat) (hk : k < W * H) :
    seenCount W H (1 <<< k) = 1 := by
  have h0 : seenCount W H 0 = 0 := by
    unfold seenCount
    simp
  have := seenCount_insert W H 0 k hk (by simp)
  simpa [h0] using this

/-! ### Grid lemmas -/

theorem List.getD_set_self' {α : Type} (l : List α) (i : Nat) (a dflt : α)
    (h : i < l.length) : (l.set i a).getD i dflt = a := by
  simp [List.getD_eq_getElem?_getD, List.getElem?_set_self h]

theorem List.getD_set_ne' {α : Type} (l : List α) (i j : Nat) (a dflt : α)
    (h : i ≠ j) : (l.set i a).getD j dflt = l.getD j dflt := by
  simp [List.getD_eq_getElem?_getD, List.getElem?_set_ne h]

theorem gridShape_initial (W H : Nat) : gridShape W H (initialGrid W H) := by
  unfold gridShape initialGrid
  constructor
  · rw [List.length_map, List.length_range]
  · intro row hrow
    obtain ⟨y, _, rfl⟩ := List.mem_map.mp hrow
    rw [List.length_map, List.length_range]

theorem Cell.get_clear_self (c : Cell) (sd : Side) : (c.clear sd).get sd = false := by
  cases sd <;> rfl

theorem Cell.get_clear_ne (c : Cell) (sd sd' : Side) (h : sd' ≠ sd) :
    (c.clear sd).get sd' = c.get sd' := by
  cases sd <;> cases sd' <;> first | rfl | exact absurd rfl h

theorem gridGet_out_of_bounds (g : Grid) (x y : Int) (h : ¬(0 ≤ x ∧ 0 ≤ y)) :
    gridGet g x y = defaultCell := by
  unfold gridGet
  rw [if_neg h]

theorem gridModify_shape (W H : Nat) (g : Grid) (x y : Int) (f : Cell → Cell)
    (hs : gridShape W H g) : gridShape W H (gridModify g x y f) := by
  obtain ⟨hlen, hrows⟩ := hs
  unfold gridShape gridModify
  split
  case isTrue hguard =>
    refine ⟨by simp [hlen], ?_⟩
    intro row hrow
    rcases Nat.lt_or_ge y.toNat g.length with hy | hy
    · rcases List.mem_or_eq_of_mem_set hrow with hmem | rfl
      · exact hrows _ hmem
      · rw [List.length_set]
        have hgd : g.getD y.toNat [] = g[y.toNat] := by
          simp [List.getD_eq_getElem?_getD, List.getElem?_eq_getElem hy]
        rw [hgd]
        exact hrows _ (List.getElem_mem hy)
    · rw [List.set_eq_of_length_le (by omega)] at hrow
      exact hrows _ hrow
  case isFalse => exact ⟨hlen, hrows⟩

theorem gridGet_modify_self (W H : Nat) (g : Grid) (x y : Int) (f : Cell → Cell)
    (hs : gridShape W H g) (h : inb W H x y = true) :
    gridGet (gridModify g x y f) x y = f (gridGet g x y) := by
  simp only [inb, Bool.and_eq_true, decide_eq_true_eq] at h
  obtain ⟨⟨⟨hx0, hxW⟩, hy0⟩, hyH⟩ := h
  obtain ⟨hlen, hrows⟩ := hs
  have hguard : 0 ≤ x ∧ 0 ≤ y := ⟨hx0, hy0⟩
  have hyn : y.toNat < g.length := by rw [hlen]; omega
  have hrow : g.getD y.toNat [] = g[y.toNat] := by
    simp [List.getD_eq_getElem?_getD, List.getElem?_eq_getElem hyn]
  have hxn : x.toNat < (g[y.toNat]).length := by
    rw [hrows _ (List.getElem_mem hyn)]; omega
  unfold gridModify gridGet
  rw [if_pos hguard, if_pos hguard, if_pos hguard, hrow]
  rw [List.getD_set_self' _ _ _ _ hyn]
  rw [List.getD_set_self' _ _ _ _ hxn]

theorem gridGet_modify_other (g : Grid) (x y : Int) (f : Cell → Cell) (x' y' : Int)
    (hne : ¬(x' = x ∧ y' = y)) :
    gridGet (gridModify g x y f) x' y' = gridGet g x' y' := by
  unfold gridModify
  split
  case isFalse => rfl
  case isTrue hguard =>
    by_cases hguard' : 0 ≤ x' ∧ 0 ≤ y'
    · unfold gridGet
      rw [if_pos hguard', if_pos hguard']
      by_cases hy : y'.toNat = y.toNat
      · have hx : x'.toNat ≠ x.toNat := by
          intro hx
          exact hne ⟨by omega, by omega⟩
        rw [hy]
        rcases Nat.lt_or_ge y.toNat g.length with hylt | hyge
        · rw [List.getD_set_self' _ _ _ _ hylt]
          rw [List.getD_set_ne' _ _ _ _ _ (by omega)]
        · rw [List.set_eq_of_length_le (by omega)]
      · rw [List.getD_set_ne' _ _ _ _ _ (by omega)]
    · rw [gridGet_out_of_bounds _ _ _ hguard', gridGet_out_of_bounds _ _ _ hguard']

/-! ### Wall-pair symmetry machinery -/

theorem opp_opp (sd : Side) : opp (opp sd) = sd := by
  cases sd <;> rfl

theorem sideDelta_opp_fst (sd : Side) :
    (sideDelta (opp sd)).1 = -(sideDelta sd).1 := by
  cases sd <;> rfl

theorem sideDelta_opp_snd (sd : Side) :
    (sideDelta (opp sd)).2 = -(sideDelta sd).2 := by
  cases sd <;> rfl

theorem dir_delta (d : Dir) (hd : d ∈ DIRS) :
    d.dx = (sideDelta d.a).1 ∧ d.dy = (sideDelta d.a).2 ∧ d.b = opp d.a := by
  fin_cases hd <;> exact ⟨rfl, rfl, rfl⟩

theorem Cell.clear_preserves_false (c : Cell) (t s0 : Side)
    (h : c.get s0 = false) : (c.clear t).get s0 = false := by
  by_cases hst : s0 = t
  · subst hst
    exact Cell.get_clear_self c s0
  · rw [Cell.get_clear_ne c t s0 hst]
    exact h

theorem clearPair_self_ne_neighbor (x y : Int) (sd : Side) :
    ¬(x + (sideDelta sd).1 = x ∧ y + (sideDelta sd).2 = y) := by
  cases sd <;> simp [sideDelta] <;> omega

theorem clearPair_shape (W H : Nat) (g : Grid) (x y : Int) (sd : Side)
    (hs : gridShape W H g) : gridShape W H (clearPair g x y sd) :=
  gridModify_shape _ _ _ _ _ _ (gridModify_shape _ _ _ _ _ _ hs)

theorem gridGet_clearPair (W H : Nat) (g : Grid) (x y : Int) (sd : Side)
    (hs : gridShape W H g) (hp : inb W H x y = true)
    (hq : inb W H (x + (sideDelta sd).1) (y + (sideDelta sd).2) = true)
    (x' y' : Int) :
    gridGet (clearPair g x y sd) x' y' =
      if x' = x + (sideDelta sd).1 ∧ y' = y + (sideDelta sd).2 then
        (gridGet g x' y').clear (opp sd)
      else if x' = x ∧ y' = y then (gridGet g x' y').clear sd
      else gridGet g x' y' := by
  have hne := clearPair_self_ne_neighbor x y sd
  unfold clearPair
  by_cases h1 : x' = x + (sideDelta sd).1 ∧ y' = y + (sideDelta sd).2
  · obtain ⟨e1, e2⟩ := h1
    subst e1
    subst e2
    rw [if_pos ⟨rfl, rfl⟩]
    rw [gridGet_modify_self W H _ _ _ _ (gridModify_shape _ _ _ _ _ _ hs) hq]
    rw [gridGet_modify_other _ _ _ _ _ _ hne]
  · rw [if_neg h1, gridGet_modify_other _ _ _ _ _ _ h1]
    by_cases h2 : x' = x ∧ y' = y
    · obtain ⟨e1, e2⟩ := h2
      subst e1
      subst e2
      rw [if_pos ⟨rfl, rfl⟩]
      rw [gridGet_modify_self W H _ _ _ _ hs hp]
    · rw [if_neg h2, gridGet_modify_other _ _ _ _ _ _ h2]

theorem clearPair_mono (W H : Nat) (g : Grid) (x y : Int) (sd : Side)
    (hs : gridShape W H g) (hp : inb W H x y = true)
    (hq : inb W H (x + (sideDelta sd).1) (y + (sideDelta sd).2) = true)
    (a b : Int) (s0 : Side) (h : (gridGet g a b).get s0 = false) :
    (gridGet (clearPair g x y sd) a b).get s0 = false := by
  rw [gridGet_clearPair W H g x y sd hs hp hq]
  split_ifs with h1 h2
  · exact Cell.clear_preserves_false _ _ _ h
  · exact Cell.clear_preserves_false _ _ _ h
  · exact h

theorem WallSym_clearPair (W H : Nat) (g : Grid) (x y : Int) (sd : Side)
    (hs : gridShape W H g) (hsym : WallSym W H g) (hp : inb W H x y = true)
    (hq : inb W H (x + (sideDelta sd).1) (y + (sideDelta sd).2) = true) :
    WallSym W H (clearPair g x y sd) := by
  intro x' y' s' hcl
  rw [gridGet_clearPair W H g x y sd hs hp hq] at hcl
  split_ifs at hcl with h1 h2
  · -- the neighbor cell of the pair
    by_cases hss : s' = opp sd
    · subst hss
      have hx : x' + (sideDelta (opp sd)).1 = x := by
        rw [h1.1, sideDelta_opp_fst]; ring
      have hy : y' + (sideDelta (opp sd)).2 = y := by
        rw [h1.2, sideDelta_opp_snd]; ring
      rw [hx, hy, opp_opp]
      refine ⟨hp, ?_⟩
      rw [gridGet_clearPair W H g x y sd hs hp hq]
      rw [if_neg (fun hcc => clearPair_self_ne_neighbor x y sd ⟨hcc.1.symm, hcc.2.symm⟩)]
      rw [if_pos ⟨rfl, rfl⟩]
      exact Cell.get_clear_self _ _
    · rw [Cell.get_clear_ne _ _ _ hss] at hcl
      obtain ⟨hinb', hop⟩ := hsym x' y' s' hcl
      exact ⟨hinb', clearPair_mono W H g x y sd hs hp hq _ _ _ hop⟩
  · -- the cell of the pair itself
    by_cases hss : s' = sd
    · subst hss
      rw [h2.1, h2.2]
      refine ⟨hq, ?_⟩
      rw [gridGet_clearPair W H g x y s' hs hp hq]
      rw [if_pos ⟨rfl, rfl⟩]
      exact Cell.get_clear_self _ _
    · rw [Cell.get_clear_ne _ _ _ hss] at hcl
      obtain ⟨hinb', hop⟩ := hsym x' y' s' hcl
      exact ⟨hinb', clearPair_mono W H g x y sd hs hp hq _ _ _ hop⟩
  · obtain ⟨hinb', hop⟩ := hsym x' y' s' hcl
    exact ⟨hinb', clearPair_mono W H g x y sd hs hp hq _ _ _ hop⟩

/-! ### The DFS loop: basic facts -/

theorem List.getD_map_range {α : Type} (f : Nat → α) (H i : Nat) (d : α) :
    ((List.range H).map f).getD i d = if i < H then f i else d := by
  split
  case isTrue h =>
    simp [List.getD_eq_getElem?_getD, List.getElem?_map, List.getElem?_range h]
  case isFalse h =>
    rw [List.getD_eq_getElem?_getD, List.getElem?_eq_none (by simpa using Nat.ge_of_not_lt h)]
    rfl

theorem initial_all_walls (W H : Nat) (x y : Int) (sd : Side) :
    (gridGet (initialGrid W H) x y).get sd = true := by
  unfold gridGet
  split
  case isFalse => cases sd <;> rfl
  case isTrue hguard =>
    unfold initialGrid
    rw [List.getD_map_range]
    split
    case isTrue hy =>
      rw [List.getD_map_range]
      split
      case isTrue hx => cases sd <;> rfl
      case isFalse hx => cases sd <;> rfl
    case isFalse hy =>
      show ((([] : List Cell)).getD x.toNat defaultCell).get sd = true
      cases sd <;> rfl

theorem WallSym_initial (W H : Nat) : WallSym W H (initialGrid W H) := by
  intro x y sd hcl
  rw [initial_all_walls] at hcl
  cases hcl

theorem roulette_mem (r : Q) (l : List (Dir × Q)) (hl : ∀ p ∈ l, p.1 ∈ DIRS) :
    roulette r l ∈ DIRS := by
  induction l generalizing r with
  | nil =>
    show (⟨0, -1, Side.n, Side.s⟩ : Dir) ∈ DIRS
    decide
  | cons p rest ih =>
    obtain ⟨d, wq⟩ := p
    cases rest with
    | nil => exact hl (d, wq) (List.mem_cons_self _ _)
    | cons p2 rest2 =>
      unfold roulette
      split
      · exact hl (d, wq) (List.mem_cons_self _ _)
      · exact ih _ fun p hp => hl p (List.mem_cons_of_mem _ hp)

set_option maxHeartbeats 1600000 in
theorem dirWeights_fst_mem (x y : Int) (prev : Option (Int × Int)) (goal : Int × Int)
    (g tau : Q) (dirs : List Dir) :
    ∀ (t : Nat) (p : Dir × Q), p ∈ (dirWeights x y prev goal g tau t dirs).1 → p.1 ∈ dirs := by
  induction dirs with
  | nil =>
    intro t p hp
    simp [dirWeights] at hp
  | cons d rest ih =>
    intro t p hp
    unfold dirWeights at hp
    dsimp only at hp
    rcases List.mem_cons.mp hp with h | h
    · rw [h]
      exact List.mem_cons_self _ _
    · exact List.mem_cons_of_mem _ (ih _ _ h)

theorem chooseDirWeighted_mem (x y : Int) (prev : Option (Int × Int))
    (goal : Int × Int) (g tau : Q) (t : Nat) :
    (chooseDirWeighted x y prev goal g tau t).1 ∈ DIRS := by
  unfold chooseDirWeighted
  dsimp only
  exact roulette_mem _ _ fun p hp => dirWeights_fst_mem x y prev goal g tau DIRS t p hp

theorem inb_pos (W H : Nat) (x y : Int) (h : inb W H x y = true) : 1 ≤ W ∧ 1 ≤ H := by
  simp only [inb, Bool.and_eq_true, decide_eq_true_eq] at h
  omega

theorem start_inb (W H : Nat) (hW : 1 ≤ W) (hH : 1 ≤ H) :
    inb W H (startCell H).1 (startCell H).2 = true := by
  simp only [startCell, inb, Bool.and_eq_true, decide_eq_true_eq]
  omega

theorem carveBetween_eq_clearPair (g : Grid) (p : Int × Int) (d : Dir) (hd : d ∈ DIRS) :
    carveBetween g p d = clearPair g p.1 p.2 d.a := by
  obtain ⟨h1, h2, h3⟩ := dir_delta d hd
  unfold carveBetween clearPair
  rw [h1, h2, h3]

theorem carveStep_seen_mono (W H : Nat) (goal : Int × Int) (g tau : Q) (st : CarveSt)
    (k : Nat) (h : st.seen.testBit k = true) :
    (carveStep W H goal g tau st).seen.testBit k = true := by
  unfold carveStep
  rcases hstack : st.stack with _ | ⟨cur, rest⟩
  · exact h
  · dsimp only
    split_ifs with h1 h2 <;> simp [testBit_insertKey, h]

/-! ### The DFS loop: invariant preservation -/

theorem LoopInv.push (W H : Nat) (st : CarveSt) (inv : LoopInv W H st)
    (cur : Int × Int) (rest : List (Int × Int)) (hstack : st.stack = cur :: rest)
    (d : Dir) (hd : d ∈ DIRS) (t' : Nat)
    (hinb : inb W H (cur.1 + d.dx) (cur.2 + d.dy) = true)
    (hnew : st.seen.testBit (cellKey W (cur.1 + d.dx) (cur.2 + d.dy)) = false) :
    LoopInv W H
      { tree := carveBetween st.tree cur d
        seen := st.seen ||| 1 <<< cellKey W (cur.1 + d.dx) (cur.2 + d.dy)
        stack := (cur.1 + d.dx, cur.2 + d.dy) :: cur :: rest
        steps := ⟨cur.1, cur.2, cur.1 + d.dx, cur.2 + d.dy⟩ :: st.steps
        t := t' } ∧
    loopMeasure W H
      { tree := carveBetween st.tree cur d
        seen := st.seen ||| 1 <<< cellKey W (cur.1 + d.dx) (cur.2 + d.dy)
        stack := (cur.1 + d.dx, cur.2 + d.dy) :: cur :: rest
        steps := ⟨cur.1, cur.2, cur.1 + d.dx, cur.2 + d.dy⟩ :: st.steps
        t := t' } < loopMeasure W H st := by
  have hWH := inb_pos W H _ _ hinb
  have hcurmem : cur ∈ st.stack := by rw [hstack]; exact List.mem_cons_self _ _
  have hcurinb : inb W H cur.1 cur.2 = true := by
    rcases inv.stack_cells cur hcurmem with h | h
    · exact h
    · rw [h]; exact start_inb W H hWH.1 hWH.2
  have hk : cellKey W (cur.1 + d.dx) (cur.2 + d.dy) < W * H := cellKey_lt W H _ _ hinb
  obtain ⟨hdx, hdy, _⟩ := dir_delta d hd
  have hq : inb W H (cur.1 + (sideDelta d.a).1) (cur.2 + (sideDelta d.a).2) = true := by
    rw [← hdx, ← hdy]; exact hinb
  constructor
  · refine ⟨?_, ?_, ?_, ?_, ?_, ?_, ?_⟩
    · intro c hc
      rcases List.mem_cons.mp hc with rfl | hc
      · simp [testBit_insertKey]
      · simp [testBit_insertKey, inv.stack_seen c (by rw [hstack]; exact hc)]
    · intro c hc
      rcases List.mem_cons.mp hc with rfl | hc
      · exact Or.inl hinb
      · exact inv.stack_cells c (by rw [hstack]; exact hc)
    · refine List.nodup_cons.mpr ⟨?_, by rw [← hstack]; exact inv.stack_nodup⟩
      intro hmem
      have hb := inv.stack_seen _ (by rw [hstack]; exact hmem)
      dsimp only at hb
      rw [hb] at hnew
      cases hnew
    · show st.steps.length + 1 + 1 = _
      rw [seenCount_insert W H st.seen _ hk hnew, ← inv.steps_count]
    · intro x y hin hb hns d' hd' hninb
      rw [testBit_insertKey] at hb
      rcases Bool.or_eq_true_iff.mp hb with hb | hb
      · have hns' : (x, y) ∉ st.stack := by
          rw [hstack]
          exact fun hmem => hns (List.mem_cons_of_mem _ hmem)
        have := inv.closure x y hin hb hns' d' hd' hninb
        simp [testBit_insertKey, this]
      · exfalso
        obtain ⟨hx, hy⟩ := cellKey_inj W H _ _ _ _ hinb hin (decide_eq_true_eq.mp hb)
        exact hns (by rw [← hx, ← hy]; exact List.mem_cons_self _ _)
    · rw [carveBetween_eq_clearPair _ _ _ hd]
      exact clearPair_shape W H _ _ _ _ (inv.grid_shape)
    · rw [carveBetween_eq_clearPair _ _ _ hd]
      exact WallSym_clearPair W H _ _ _ _ inv.grid_shape inv.grid_sym hcurinb hq
  · have hle : seenCount W H st.seen + 1 ≤ W * H := by
      rw [← seenCount_insert W H st.seen _ hk hnew]
      exact seenCount_le W H _
    unfold loopMeasure
    rw [seenCount_insert W H st.seen _ hk hnew]
    simp only [List.length_cons, hstack]
    omega

theorem LoopInv.pop (W H : Nat) (st : CarveSt) (inv : LoopInv W H st)
    (cur : Int × Int) (rest : List (Int × Int)) (hstack : st.stack = cur :: rest)
    (hcand : ∀ d ∈ DIRS, inb W H (cur.1 + d.dx) (cur.2 + d.dy) = true →
      st.seen.testBit (cellKey W (cur.1 + d.dx) (cur.2 + d.dy)) = true) :
    LoopInv W H { st with stack := rest } ∧
      loopMeasure W H { st with stack := rest } < loopMeasure W H st := by
  constructor
  · refine ⟨?_, ?_, ?_, ?_, ?_, ?_, ?_⟩
    · intro c hc
      exact inv.stack_seen c (by rw [hstack]; exact List.mem_cons_of_mem _ hc)
    · intro c hc
      exact inv.stack_cells c (by rw [hstack]; exact List.mem_cons_of_mem _ hc)
    · have := inv.stack_nodup
      rw [hstack] at this
      exact (List.nodup_cons.mp this).2
    · exact inv.steps_count
    · intro x y hin hb hns d' hd' hninb
      by_cases hxy : (x, y) = cur
      · have hx : cur.1 = x := by rw [← hxy]
        have hy : cur.2 = y := by rw [← hxy]
        rw [← hx, ← hy]
        exact hcand d' hd' (by rw [hx, hy]; exact hninb)
      · have hns' : (x, y) ∉ st.stack := by
          rw [hstack]
          intro hmem
          rcases List.mem_cons.mp hmem with h | h
          · exact hxy h
          · exact hns h
        exact inv.closure x y hin hb hns' d' hd' hninb
    · exact inv.grid_shape
    · exact inv.grid_sym
  · unfold loopMeasure
    simp only [hstack, List.length_cons]
    omega

theorem getD_mem_of_ne_nil (l : List Dir) (t0 : Nat) (hl : ¬l = []) :
    l.getD ((((rnd t0).1).mul ⟨(l.length : Int), 1⟩).floorNat) ⟨0, -1, Side.n, Side.s⟩ ∈ l := by
  have hidx := rnd_mul_floorNat_lt t0 l.length (List.length_pos.mpr hl)
  rw [List.getD_eq_getElem?_getD, List.getElem?_eq_getElem hidx, Option.getD_some]
  exact List.getElem_mem hidx

set_option maxHeartbeats 1600000 in
theorem carveStep_inv (W H : Nat) (goal : Int × Int) (g tau : Q) (st : CarveSt)
    (inv : LoopInv W H st) (hne : st.stack ≠ []) :
    LoopInv W H (carveStep W H goal g tau st) ∧
      loopMeasure W H (carveStep W H goal g tau st) < loopMeasure W H st := by
  unfold carveStep
  rcases hstack : st.stack with _ | ⟨cur, rest⟩
  · exact absurd hstack hne
  dsimp only
  split_ifs with hcand hvalid
  · -- backtrack
    apply LoopInv.pop W H st inv cur rest hstack
    intro d hd hinb
    have hc := List.filter_eq_nil_iff.mp hcand d hd
    cases hbit : st.seen.testBit (cellKey W (cur.1 + d.dx) (cur.2 + d.dy))
    · exact absurd (by rw [hinb, hbit]; rfl) hc
    · rfl
  · -- carve into the weighted choice
    simp only [Bool.and_eq_true, Bool.not_eq_true'] at hvalid
    exact LoopInv.push W H st inv cur rest hstack _
      (chooseDirWeighted_mem _ _ _ _ _ _ _) _ hvalid.1 hvalid.2
  · -- fallback to a uniformly chosen candidate
    have hmem := getD_mem_of_ne_nil _
      ((chooseDirWeighted cur.1 cur.2 (match rest with
        | p :: _ => some (cur.1 - p.1, cur.2 - p.2)
        | [] => none) goal g tau st.t).2) hcand
    have hpred := (List.mem_filter.mp hmem).2
    simp only [Bool.and_eq_true, Bool.not_eq_true'] at hpred
    exact LoopInv.push W H st inv cur rest hstack _
      (List.mem_filter.mp hmem).1 _ hpred.1 hpred.2

/-! ### The DFS loop: termination and coverage -/

theorem carveLoop_of_empty (W H : Nat) (goal : Int × Int) (g tau : Q)
    (fuel : Nat) (st : CarveSt) (h : st.stack = []) :
    carveLoop W H goal g tau fuel st = st := by
  cases fuel with
  | zero => rfl
  | succ n => rw [carveLoop_succ, if_pos h]

theorem carveLoop_inv (W H : Nat) (goal : Int × Int) (g tau : Q) :
    ∀ (fuel : Nat) (st : CarveSt), LoopInv W H st → loopMeasure W H st ≤ fuel →
      (carveLoop W H goal g tau fuel st).stack = [] ∧
        LoopInv W H (carveLoop W H goal g tau fuel st) ∧
        ∀ k, st.seen.testBit k = true →
          (carveLoop W H goal g tau fuel st).seen.testBit k = true := by
  intro fuel
  induction fuel with
  | zero =>
    intro st inv hm
    rw [carveLoop_zero]
    have hlen : st.stack.length = 0 := by
      unfold loopMeasure at hm
      omega
    exact ⟨List.length_eq_zero.mp hlen, inv, fun k h => h⟩
  | succ fuel ih =>
    intro st inv hm
    rw [carveLoop_succ]
    split_ifs with hemp
    · exact ⟨hemp, inv, fun k h => h⟩
    · obtain ⟨inv2, hlt⟩ := carveStep_inv W H goal g tau st inv hemp
      obtain ⟨h1, h2, h3⟩ := ih (carveStep W H goal g tau st) inv2 (by omega)
      exact ⟨h1, h2, fun k hk => h3 k (carveStep_seen_mono W H goal g tau st k hk)⟩

theorem carvePhase_inv (W H seed : Nat) (g tau : Q) (hW : 1 ≤ W) (hH : 1 ≤ H) :
    (carvePhase W H seed g tau).stack = [] ∧
      LoopInv W H (carvePhase W H seed g tau) ∧
      (carvePhase W H seed g tau).seen.testBit
        (cellKey W (startCell H).1 (startCell H).2) = true := by
  have hs := start_inb W H hW hH
  have hk := cellKey_lt W H _ _ hs
  have hinv0 : LoopInv W H
      { tree := initialGrid W H
        seen := 1 <<< cellKey W (startCell H).1 (startCell H).2
        stack := [startCell H]
        steps := []
        t := seed % 2 ^ 32 } := by
    refine ⟨?_, ?_, ?_, ?_, ?_, gridShape_initial W H, WallSym_initial W H⟩
    · intro c hc
      rw [List.mem_singleton] at hc
      subst hc
      rw [Nat.one_shiftLeft, Nat.testBit_two_pow]
      simp
    · intro c hc
      rw [List.mem_singleton] at hc
      exact Or.inr hc
    · exact List.nodup_singleton _
    · show 0 + 1 = _
      rw [seenCount_singleton W H _ hk]
    · intro x y hin hb hns d' hd' hninb
      exfalso
      rw [Nat.one_shiftLeft, Nat.testBit_two_pow] at hb
      obtain ⟨hx, hy⟩ := cellKey_inj W H _ _ _ _ hs hin (decide_eq_true_eq.mp hb)
      refine hns ?_
      rw [← hx, ← hy]
      simp
  have hm0 : loopMeasure W H
      { tree := initialGrid W H
        seen := 1 <<< cellKey W (startCell H).1 (startCell H).2
        stack := [startCell H]
        steps := []
        t := seed % 2 ^ 32 } ≤ 2 * W * H + 1 := by
    unfold loopMeasure
    rw [seenCount_singleton W H _ hk]
    simp only [List.length_cons, List.length_nil]
    rw [Nat.mul_assoc]
    omega
  obtain ⟨h1, h2, h3⟩ := carveLoop_inv W H (goalCell W H) g tau (2 * W * H + 1) _ hinv0 hm0
  refine ⟨h1, h2, h3 _ ?_⟩
  rw [Nat.one_shiftLeft, Nat.testBit_two_pow]
  simp

/-! ### Wall symmetry through the whole generation -/

theorem foldl_preserve {α β : Type} (P : α → Prop) (f : α → β → α) (l : List β)
    (init : α) (h0 : P init) (hstep : ∀ a x, x ∈ l → P a → P (f a x)) :
    P (l.foldl f init) := by
  induction l generalizing init with
  | nil => exact h0
  | cons x rest ih =>
    exact ih (f init x) (hstep init x (List.mem_cons_self _ _) h0)
      fun a z hz ha => hstep a z (List.mem_cons_of_mem _ hz) ha

theorem carveBetween_shape_sym (W H : Nat) (tree : Grid) (cur : Int × Int) (d : Dir)
    (hd : d ∈ DIRS) (hshape : gridShape W H tree) (hsym : WallSym W H tree)
    (hcur : inb W H cur.1 cur.2 = true)
    (hinb : inb W H (cur.1 + d.dx) (cur.2 + d.dy) = true) :
    gridShape W H (carveBetween tree cur d) ∧ WallSym W H (carveBetween tree cur d) := by
  obtain ⟨hdx, hdy, _⟩ := dir_delta _ hd
  rw [carveBetween_eq_clearPair _ _ _ hd]
  refine ⟨clearPair_shape W H _ _ _ _ hshape,
    WallSym_clearPair W H _ _ _ _ hshape hsym hcur ?_⟩
  rw [← hdx, ← hdy]
  exact hinb

theorem carveStep_grid (W H : Nat) (goal : Int × Int) (g tau : Q) (st : CarveSt)
    (hshape : gridShape W H st.tree) (hsym : WallSym W H st.tree)
    (hcells : ∀ c ∈ st.stack, inb W H c.1 c.2 = true ∨ c = startCell H) :
    gridShape W H (carveStep W H goal g tau st).tree ∧
      WallSym W H (carveStep W H goal g tau st).tree ∧
      ∀ c ∈ (carveStep W H goal g tau st).stack,
        inb W H c.1 c.2 = true ∨ c = startCell H := by
  unfold carveStep
  rcases hstack : st.stack with _ | ⟨cur, rest⟩
  · exact ⟨hshape, hsym, fun c hc => hcells c hc⟩
  dsimp only
  have hcurmem : cur ∈ st.stack := by rw [hstack]; exact List.mem_cons_self _ _
  split_ifs with hcand hvalid
  · refine ⟨hshape, hsym, ?_⟩
    intro c hc
    exact hcells c (by rw [hstack]; exact List.mem_cons_of_mem _ hc)
  · simp only [Bool.and_eq_true, Bool.not_eq_true'] at hvalid
    have hWH := inb_pos W H _ _ hvalid.1
    have hcur : inb W H cur.1 cur.2 = true := by
      rcases hcells cur hcurmem with h | h
      · exact h
      · rw [h]; exact start_inb W H hWH.1 hWH.2
    obtain ⟨hbs1, hbs2⟩ := carveBetween_shape_sym W H st.tree cur _
      (chooseDirWeighted_mem _ _ _ _ _ _ _) hshape hsym hcur hvalid.1
    refine ⟨hbs1, hbs2, fun c hc => ?_⟩
    rcases List.mem_cons.mp hc with rfl | hc2
    · exact Or.inl hvalid.1
    · exact hcells c (by rw [hstack]; exact hc2)
  · have hmem := getD_mem_of_ne_nil _
      ((chooseDirWeighted cur.1 cur.2 (match rest with
        | p :: _ => some (cur.1 - p.1, cur.2 - p.2)
        | [] => none) goal g tau st.t).2) hcand
    have hd2 := (List.mem_filter.mp hmem).1
    have hpred := (List.mem_filter.mp hmem).2
    simp only [Bool.and_eq_true, Bool.not_eq_true'] at hpred
    have hWH := inb_pos W H _ _ hpred.1
    have hcur : inb W H cur.1 cur.2 = true := by
      rcases hcells cur hcurmem with h | h
      · exact h
      · rw [h]; exact start_inb W H hWH.1 hWH.2
    obtain ⟨hbs1, hbs2⟩ := carveBetween_shape_sym W H st.tree cur _
      hd2 hshape hsym hcur hpred.1
    refine ⟨hbs1, hbs2, fun c hc => ?_⟩
    rcases List.mem_cons.mp hc with rfl | hc2
    · exact Or.inl hpred.1
    · exact hcells c (by rw [hstack]; exact hc2)

theorem carveLoop_grid (W H : Nat) (goal : Int × Int) (g tau : Q) :
    ∀ (fuel : Nat) (st : CarveSt),
      gridShape W H st.tree → WallSym W H st.tree →
      (∀ c ∈ st.stack, inb W H c.1 c.2 = true ∨ c = startCell H) →
      gridShape W H (carveLoop W H goal g tau fuel st).tree ∧
        WallSym W H (carveLoop W H goal g tau fuel st).tree := by
  intro fuel
  induction fuel with
  | zero =>
    intro st hshape hsym _
    exact ⟨hshape, hsym⟩
  | succ fuel ih =>
    intro st hshape hsym hcells
    rw [carveLoop_succ]
    split_ifs with hemp
    · exact ⟨hshape, hsym⟩
    · obtain ⟨h1, h2, h3⟩ := carveStep_grid W H goal g tau st hshape hsym hcells
      exact ih _ h1 h2 h3

theorem carvePhase_grid (W H seed : Nat) (g tau : Q) :
    gridShape W H (carvePhase W H seed g tau).tree ∧
      WallSym W H (carvePhase W H seed g tau).tree := by
  apply carveLoop_grid W H (goalCell W H) g tau (2 * W * H + 1)
  · exact gridShape_initial W H
  · exact WallSym_initial W H
  · intro c hc
    rw [List.mem_singleton] at hc
    exact Or.inr hc

theorem braidCell_grid (W H : Nat) (b : Q) (st : BraidSt) (x y : Int)
    (hin : inb W H x y = true)
    (hs : gridShape W H st.maze) (hsym : WallSym W H st.maze) :
    gridShape W H (braidCell W H b st x y).maze ∧
      WallSym W H (braidCell W H b st x y).maze := by
  unfold braidCell
  dsimp only
  split_ifs with h1 h2 h3 h4
  · exact ⟨hs, hsym⟩
  · exact ⟨clearPair_shape W H _ _ _ _ hs, WallSym_clearPair W H _ _ _ _ hs hsym hin h4⟩
  · exact ⟨hs, hsym⟩
  · exact ⟨hs, hsym⟩
  · exact ⟨hs, hsym⟩

theorem braidPhase_grid (W H : Nat) (b : Q) (tree : Grid) (t : Nat)
    (hs : gridShape W H tree) (hsym : WallSym W H tree) :
    gridShape W H (braidPhase W H b tree t).maze ∧
      WallSym W H (braidPhase W H b tree t).maze := by
  unfold braidPhase
  split_ifs with hb
  · refine foldl_preserve
      (fun (st : BraidSt) => gridShape W H st.maze ∧ WallSym W H st.maze) _ _ _ ⟨hs, hsym⟩ ?_
    intro st y hy hst
    refine foldl_preserve
      (fun (st : BraidSt) => gridShape W H st.maze ∧ WallSym W H st.maze) _ _ _ hst ?_
    intro st2 x hx hst2
    have hyH : y < H := List.mem_range.mp hy
    have hxW : x < W := List.mem_range.mp hx
    have hin : inb W H (Int.ofNat x) (Int.ofNat y) = true := by
      unfold inb
      simp only [Bool.and_eq_true, decide_eq_true_eq, Int.ofNat_eq_natCast]
      refine ⟨⟨⟨?_, ?_⟩, ?_⟩, ?_⟩ <;> omega
    exact braidCell_grid W H b st2 (Int.ofNat x) (Int.ofNat y) hin hst2.1 hst2.2
  · exact ⟨hs, hsym⟩

theorem openDeg_eq_mutual (W H : Nat) (g : Grid) (hsym : WallSym W H g) (x y : Int) :
    openDeg (gridGet g x y) = mutualOpenCount W H g x y := by
  unfold mutualOpenCount
  have hpred : ∀ d ∈ DIRS,
      (!(gridGet g x y).get d.a && inb W H (x + d.dx) (y + d.dy) &&
        !(gridGet g (x + d.dx) (y + d.dy)).get d.b) = !(gridGet g x y).get d.a := by
    intro d hd
    obtain ⟨hdx, hdy, hba⟩ := dir_delta d hd
    rw [hdx, hdy, hba]
    cases hflag : (gridGet g x y).get d.a
    · obtain ⟨hinb, hop⟩ := hsym x y d.a hflag
      rw [hinb, hop]
      rfl
    · rfl
  rw [List.filter_congr hpred]
  rcases hget : gridGet g x y with ⟨cx, cy, cn, cs, ce, cw⟩
  show (if cn then 0 else 1) + (if cs then 0 else 1) + (if ce then 0 else 1) +
      (if cw then 0 else 1) = _
  cases cn <;> cases cs <;> cases ce <;> cases cw <;> rfl

/-! ### The stats error path -/

theorem computeTreeStatsE_ok (tree : Grid) (steps : List CarveStep) (h : tree ≠ []) :
    computeTreeStatsE tree steps = Except.ok (computeTreeStats tree steps) := by
  rcases tree with _ | ⟨r, t⟩
  · exact absurd rfl h
  · rfl

theorem createMazeE_ok (p : MazeParams) (hH : 1 ≤ p.height) :
    createMazeE p = Except.ok (createMaze p) := by
  have hlen : (carvePhase p.width p.height p.seed (Q.ofRat p.g) (Q.ofRat p.tau)).tree.length
      = p.height :=
    (carvePhase_grid p.width p.height p.seed (Q.ofRat p.g) (Q.ofRat p.tau)).1.1
  have hne :
      (carvePhase p.width p.height p.seed (Q.ofRat p.g) (Q.ofRat p.tau)).tree ≠ [] := by
    intro h0
    rw [h0] at hlen
    simp only [List.length_nil] at hlen
    omega
  simp only [createMazeE]
  rw [computeTreeStatsE_ok _ _ hne]
  rfl

theorem createMazeE_height_zero (p : MazeParams) (hH : p.height = 0) :
    createMazeE p = Except.error () := by
  have hlen : (carvePhase p.width p.height p.seed (Q.ofRat p.g) (Q.ofRat p.tau)).tree.length
      = p.height :=
    (carvePhase_grid p.width p.height p.seed (Q.ofRat p.g) (Q.ofRat p.tau)).1.1
  have hnil : (carvePhase p.width p.height p.seed (Q.ofRat p.g) (Q.ofRat p.tau)).tree = [] :=
    List.length_eq_zero.mp (by rw [hlen]; exact hH)
  simp only [createMazeE]
  rw [hnil]
  rfl

/-! ### Save/load handler lemmas -/

theorem find?_append_fresh {α : Type} (l : List α) (p : α → Bool) (e : α)
    (hl : ∀ a ∈ l, p a = false) (he : p e = true) :
    (l ++ [e]).find? p = some e := by
  induction l with
  | nil =>
    simp only [List.nil_append]
    exact List.find?_cons_of_pos _ he
  | cons a rest ih =>
    rw [List.cons_append,
      List.find?_cons_of_neg _ (by simp [hl a (List.mem_cons_self _ _)])]
    exact ih fun z hz => hl z (List.mem_cons_of_mem _ hz)

theorem handleLoad_found (st : AppState) (idv : String) (e : SavedMaze)
    (hfind : st.saved.find? (fun m => m.id == idv) = some e)
    (hlock : st.lockSize = false)
    (hw : e.params.width % 2 = 1) (hh : e.params.height % 2 = 1) :
    handleLoad st idv =
      { st with
        width := e.params.width
        height := e.params.height
        seed := e.params.seed
        g := e.params.g
        b := e.params.b
        tau := e.params.tau
        selectedId := some idv } := by
  obtain ⟨w0, h0, s0, g0, b0, t0, lk0, sv0, sel0, nm0⟩ := st
  subst hlock
  unfold handleLoad
  rw [hfind]
  simp only [setWidth, setHeight, if_pos hw, if_pos hh, if_neg Bool.false_ne_true]

theorem WallSym_boundary (W H : Nat) (g : Grid) (hsym : WallSym W H g)
    (x y : Int) (sd : Side)
    (hout : inb W H (x + (sideDelta sd).1) (y + (sideDelta sd).2) = false) :
    (gridGet g x y).get sd = true := by
  cases hflag : (gridGet g x y).get sd
  · have hin := (hsym x y sd hflag).1
    rw [hin] at hout
    cases hout
  · rfl

/-! ### Claim theorems -/

/-- Claim C1: `createMaze` is deterministic — it is a pure function of
its `MazeParameters` record, so two calls on the same record agree on
`maze`, `treeSteps`, `braidEdits` and `stats` — and on the concrete
record `{width:19, height:19, seed:42, g:0.3, b:0.15, tau:0.4}` the
stats are `L = 361`, `T = 211/361`, `J = 37`, `E = 40`, whose difficulty
score lies in `[6.4985, 6.4995)` and hence equals `6.499` to 3-decimal
precision. -/
theorem C1_determinism_and_pinned_difficulty :
    (∀ p : MazeParams, createMaze p = createMaze p) ∧
      (createMaze testParams).stats = ⟨361, 211 / 361, 37, 40⟩ ∧
      (6.4985 : ℝ) ≤ difficultyD (createMaze testParams).stats ∧
      difficultyD (createMaze testParams).stats < (6.4995 : ℝ) := by
  obtain ⟨hlo, hhi⟩ := logb_two_361_bounds
  refine ⟨fun p => rfl, stats_testParams, ?_, ?_⟩ <;>
    · rw [stats_testParams]
      unfold difficultyD
      norm_num
      linarith

/-- Claim C5 (amended): the DFS loop always terminates — for every
parameter record the stack is empty when `carvePhase` (the loop run
with fuel `2·width·height + 1`, as used by `createMaze`) returns, and
running the loop any longer changes nothing — but `createMaze` returns
a result only when `height ≥ 1`: on a grid with no rows the stats
computation after the loop throws a `TypeError`, so despite the loop
having terminated the call returns nothing. -/
theorem C5_termination (p : MazeParams) :
    ((carvePhase p.width p.height p.seed (Q.ofRat p.g) (Q.ofRat p.tau)).stack = [] ∧
      ∀ extra : Nat,
        carveLoop p.width p.height (goalCell p.width p.height) (Q.ofRat p.g) (Q.ofRat p.tau)
            extra (carvePhase p.width p.height p.seed (Q.ofRat p.g) (Q.ofRat p.tau)) =
          carvePhase p.width p.height p.seed (Q.ofRat p.g) (Q.ofRat p.tau)) ∧
      (1 ≤ p.height → createMazeE p = Except.ok (createMaze p)) := by
  refine ⟨?_, fun hH => createMazeE_ok p hH⟩
  have hempty :
      (carvePhase p.width p.height p.seed (Q.ofRat p.g) (Q.ofRat p.tau)).stack = [] := by
    rcases Nat.eq_zero_or_pos p.width with hW | hW
    · -- zero-width grid: no cell is in bounds, the start is popped at once
      unfold carvePhase
      rw [hW]
      rw [show 2 * 0 * p.height + 1 = 0 + 1 from by ring_nf]
      rw [carveLoop_succ]
      rw [if_neg (by simp)]
      rw [carveLoop_zero]
      unfold carveStep
      dsimp only
      rw [if_pos ?hfil]
      case hfil =>
        apply List.filter_eq_nil_iff.mpr
        intro d hd
        fin_cases hd <;> simp [inb, startCell]
    rcases Nat.eq_zero_or_pos p.height with hH | hH
    · -- zero-height grid: same, the start is popped at once
      unfold carvePhase
      rw [hH]
      rw [show 2 * p.width * 0 + 1 = 0 + 1 from by ring_nf]
      rw [carveLoop_succ]
      rw [if_neg (by simp)]
      rw [carveLoop_zero]
      unfold carveStep
      dsimp only
      rw [if_pos ?hfil2]
      case hfil2 =>
        apply List.filter_eq_nil_iff.mpr
        intro d hd
        fin_cases hd <;> simp [inb, startCell]
    · exact (carvePhase_inv p.width p.height p.seed (Q.ofRat p.g) (Q.ofRat p.tau) hW hH).1
  exact ⟨hempty, fun extra => carveLoop_of_empty _ _ _ _ _ _ _ hempty⟩

/-- Counterexample for C5 as stated: at `height = 0` the DFS loop does
terminate, but `createMaze` returns no result — the stats computation
reads the width of a grid with no rows and throws. -/
theorem C5_height_zero_counterexample :
    createMazeE ⟨5, 0, 42, 3 / 10, 15 / 100, 2 / 5⟩ = Except.error () :=
  createMazeE_height_zero ⟨5, 0, 42, 3 / 10, 15 / 100, 2 / 5⟩ rfl

/-- Claim C2: spanning coverage — for every width and height at or above
the sane minimum of 3 cells per axis, the depth-first backtracker visits
every cell exactly once, so `treeSteps.length + 1 = width · height`. -/
theorem C2_spanning_coverage (p : MazeParams) (hW3 : 3 ≤ p.width) (hH3 : 3 ≤ p.height) :
    (createMaze p).treeSteps.length + 1 = p.width * p.height := by
  have h1W : 1 ≤ p.width := by omega
  have h1H : 1 ≤ p.height := by omega
  obtain ⟨hemp, hinv, hstart⟩ :=
    carvePhase_inv p.width p.height p.seed (Q.ofRat p.g) (Q.ofRat p.tau) h1W h1H
  set W := p.width with hWdef
  set H := p.height with hHdef
  generalize hfin :
    carvePhase W H p.seed (Q.ofRat p.g) (Q.ofRat p.tau) = fin at hemp hinv hstart
  have hts : (createMaze p).treeSteps = fin.steps.reverse := by
    rw [← hfin]
    rfl
  rw [hts, List.length_reverse]
  have hclosure : ∀ (x y : Int), inb W H x y = true →
      fin.seen.testBit (cellKey W x y) = true →
      ∀ d ∈ DIRS, inb W H (x + d.dx) (y + d.dy) = true →
        fin.seen.testBit (cellKey W (x + d.dx) (y + d.dy)) = true := by
    intro x y hin hb d hd hninb
    exact hinv.closure x y hin hb (by rw [hemp]; exact List.not_mem_nil _) d hd hninb
  have hrow : ∀ i : Nat, i < W →
      fin.seen.testBit (cellKey W ((i : Int)) (((H / 2 : Nat) : Int))) = true := by
    intro i
    induction i with
    | zero =>
      intro _
      exact hstart
    | succ i ih =>
      intro hi
      have hbi := ih (by omega)
      have hin : inb W H ((i : Int)) (((H / 2 : Nat) : Int)) = true := by
        unfold inb
        simp only [Bool.and_eq_true, decide_eq_true_eq]
        omega
      have hninb : inb W H ((i : Int) + 1) (((H / 2 : Nat) : Int) + 0) = true := by
        unfold inb
        simp only [Bool.and_eq_true, decide_eq_true_eq]
        omega
      have hstep := hclosure _ _ hin hbi ⟨1, 0, Side.e, Side.w⟩ (by decide) hninb
      dsimp only at hstep
      have e1 : (i : Int) + (1 : Int) = ((i + 1 : Nat) : Int) := by omega
      have e2 : ((H / 2 : Nat) : Int) + (0 : Int) = ((H / 2 : Nat) : Int) := by omega
      rw [e1, e2] at hstep
      exact hstep
  have hcol : ∀ i : Nat, i < W → ∀ j : Nat, j < H →
      fin.seen.testBit (cellKey W ((i : Int)) ((j : Int))) = true := by
    intro i hi
    have hup : ∀ k : Nat, H / 2 + k < H →
        fin.seen.testBit (cellKey W ((i : Int)) (((H / 2 + k : Nat) : Int))) = true := by
      intro k
      induction k with
      | zero =>
        intro _
        exact hrow i hi
      | succ k ih =>
        intro hk
        have hbk := ih (by omega)
        have hin : inb W H ((i : Int)) (((H / 2 + k : Nat) : Int)) = true := by
          unfold inb
          simp only [Bool.and_eq_true, decide_eq_true_eq]
          omega
        have hninb : inb W H ((i : Int) + 0) (((H / 2 + k : Nat) : Int) + 1) = true := by
          unfold inb
          simp only [Bool.and_eq_true, decide_eq_true_eq]
          omega
        have hstep := hclosure _ _ hin hbk ⟨0, 1, Side.s, Side.n⟩ (by decide) hninb
        dsimp only at hstep
        have e1 : (i : Int) + (0 : Int) = (i : Int) := by omega
        have e2 : ((H / 2 + k : Nat) : Int) + (1 : Int) = ((H / 2 + (k + 1) : Nat) : Int) := by omega
        rw [e1, e2] at hstep
        exact hstep
    have hdown : ∀ k : Nat, k ≤ H / 2 →
        fin.seen.testBit (cellKey W ((i : Int)) (((H / 2 - k : Nat) : Int))) = true := by
      intro k
      induction k with
      | zero =>
        intro _
        exact hrow i hi
      | succ k ih =>
        intro hk
        have hbk := ih (by omega)
        have hin : inb W H ((i : Int)) (((H / 2 - k : Nat) : Int)) = true := by
          unfold inb
          simp only [Bool.and_eq_true, decide_eq_true_eq]
          omega
        have hninb : inb W H ((i : Int) + 0) (((H / 2 - k : Nat) : Int) + (-1)) = true := by
          unfold inb
          simp only [Bool.and_eq_true, decide_eq_true_eq]
          omega
        have hstep := hclosure _ _ hin hbk ⟨0, -1, Side.n, Side.s⟩ (by decide) hninb
        dsimp only at hstep
        have e1 : (i : Int) + (0 : Int) = (i : Int) := by omega
        have e2 : ((H / 2 - k : Nat) : Int) + (-1 : Int) = ((H / 2 - (k + 1) : Nat) : Int) := by
          omega
        rw [e1, e2] at hstep
        exact hstep
    intro j hj
    rcases le_or_lt (H / 2) j with h | h
    · have hj2 := hup (j - H / 2) (by omega)
      rw [show H / 2 + (j - H / 2) = j from by omega] at hj2
      exact hj2
    · have hj2 := hdown (H / 2 - j) (by omega)
      rw [show H / 2 - (H / 2 - j) = j from by omega] at hj2
      exact hj2
  have hall : ∀ k, k < W * H → fin.seen.testBit k = true := by
    intro k hk
    have hWpos : 0 < W := by omega
    have hx : k % W < W := Nat.mod_lt _ hWpos
    have hy : k / W < H := by
      rw [Nat.div_lt_iff_lt_mul hWpos]
      rw [Nat.mul_comm W H] at hk
      exact hk
    have hbit := hcol (k % W) hx (k / W) hy
    have hkey : cellKey W (((k % W : Nat) : Int)) (((k / W : Nat) : Int)) = k := by
      show (((k / W : Nat) : Int)).toNat * W + (((k % W : Nat) : Int)).toNat = k
      rw [Int.toNat_ofNat, Int.toNat_ofNat]
      rw [Nat.mul_comm (k / W) W]
      exact Nat.div_add_mod k W
    rw [hkey] at hbit
    exact hbit
  have hcount : seenCount W H fin.seen = W * H := by
    unfold seenCount
    rw [Finset.filter_true_of_mem fun k hk => hall k (Finset.mem_range.mp hk)]
    exact Finset.card_range _
  rw [hinv.steps_count, hcount]

/-- Witness for C2 at the concrete record `{width:3, height:3, seed:0,
g:0, b:0, tau:0}` (the minimum sane dimensions). -/
theorem C2_spanning_coverage_witness :
    3 ≤ (⟨3, 3, 0, 0, 0, 0⟩ : MazeParams).width ∧
      3 ≤ (⟨3, 3, 0, 0, 0, 0⟩ : MazeParams).height ∧
      (createMaze ⟨3, 3, 0, 0, 0, 0⟩).treeSteps.length + 1 =
        (⟨3, 3, 0, 0, 0, 0⟩ : MazeParams).width * (⟨3, 3, 0, 0, 0, 0⟩ : MazeParams).height :=
  ⟨by decide, by decide,
    C2_spanning_coverage ⟨3, 3, 0, 0, 0, 0⟩ (by decide) (by decide)⟩

/-- Claim C3: the braid probability `b` does not interfere with the
scoring — `stats` is computed from the pre-braid tree and carve
sequence, which depend only on `width`, `height`, `seed`, `g` and
`tau`, so two parameter records agreeing on those five fields produce
equal `stats` records regardless of `b`. -/
theorem C3_braid_noninterference (p₁ p₂ : MazeParams)
    (hW : p₁.width = p₂.width) (hH : p₁.height = p₂.height)
    (hs : p₁.seed = p₂.seed) (hg : p₁.g = p₂.g) (ht : p₁.tau = p₂.tau) :
    (createMaze p₁).stats = (createMaze p₂).stats := by
  simp only [createMaze]
  rw [hW, hH, hs, hg, ht]

/-- Witness for C3 at two concrete parameter records that agree on
`width`, `height`, `seed`, `g`, `tau` and differ in `b` (`0` vs
`0.5`). -/
theorem C3_braid_noninterference_witness :
    (⟨5, 5, 7, 1/2, 0, 1/4⟩ : MazeParams).width = (⟨5, 5, 7, 1/2, 1/2, 1/4⟩ : MazeParams).width ∧
    (⟨5, 5, 7, 1/2, 0, 1/4⟩ : MazeParams).height = (⟨5, 5, 7, 1/2, 1/2, 1/4⟩ : MazeParams).height ∧
    (⟨5, 5, 7, 1/2, 0, 1/4⟩ : MazeParams).seed = (⟨5, 5, 7, 1/2, 1/2, 1/4⟩ : MazeParams).seed ∧
    (⟨5, 5, 7, 1/2, 0, 1/4⟩ : MazeParams).g = (⟨5, 5, 7, 1/2, 1/2, 1/4⟩ : MazeParams).g ∧
    (⟨5, 5, 7, 1/2, 0, 1/4⟩ : MazeParams).tau = (⟨5, 5, 7, 1/2, 1/2, 1/4⟩ : MazeParams).tau ∧
    (createMaze ⟨5, 5, 7, 1/2, 0, 1/4⟩).stats = (createMaze ⟨5, 5, 7, 1/2, 1/2, 1/4⟩).stats :=
  ⟨rfl, rfl, rfl, rfl, rfl,
    C3_braid_noninterference _ _ rfl rfl rfl rfl rfl⟩

/-- Claim C4: wall-pair symmetry of the final maze — for every
parameter record, in the grid `createMaze` returns every cleared wall
flag points at an in-bounds neighbor whose opposite flag is also
cleared, every cell's open-degree equals its count of mutually open
neighbors, and a flag facing out of the grid is never cleared. -/
theorem C4_wall_pairs (p : MazeParams) :
    WallSym p.width p.height (createMaze p).maze ∧
      (∀ x y : Int,
        openDeg (gridGet (createMaze p).maze x y) =
          mutualOpenCount p.width p.height (createMaze p).maze x y) ∧
      ∀ (x y : Int) (sd : Side),
        inb p.width p.height (x + (sideDelta sd).1) (y + (sideDelta sd).2) = false →
        (gridGet (createMaze p).maze x y).get sd = true := by
  obtain ⟨hs0, hsym0⟩ :=
    carvePhase_grid p.width p.height p.seed (Q.ofRat p.g) (Q.ofRat p.tau)
  obtain ⟨hs1, hsym1⟩ :=
    braidPhase_grid p.width p.height (Q.ofRat p.b)
      (carvePhase p.width p.height p.seed (Q.ofRat p.g) (Q.ofRat p.tau)).tree
      (carvePhase p.width p.height p.seed (Q.ofRat p.g) (Q.ofRat p.tau)).t hs0 hsym0
  exact ⟨hsym1, fun x y => openDeg_eq_mutual p.width p.height _ hsym1 x y,
    fun x y sd hout => WallSym_boundary p.width p.height _ hsym1 x y sd hout⟩

/-- Witness for C4 at a concrete record and a concrete boundary flag:
the north flag of the top-left cell of a `3 × 3` maze faces out of the
grid and is still set after generation. -/
theorem C4_wall_pairs_witness :
    inb (⟨3, 3, 0, 0, 0, 0⟩ : MazeParams).width (⟨3, 3, 0, 0, 0, 0⟩ : MazeParams).height
        (0 + (sideDelta Side.n).1) (0 + (sideDelta Side.n).2) = false ∧
      (gridGet (createMaze ⟨3, 3, 0, 0, 0, 0⟩).maze 0 0).get Side.n = true :=
  ⟨by decide, (C4_wall_pairs ⟨3, 3, 0, 0, 0, 0⟩).2.2 0 0 Side.n (by decide)⟩

/-- Claim C6 (amended): `createMaze` performs no dimension validation
and has no `InvalidInput` failure path.  For every parameter record
with at least one row — below-minimum dimensions and `width = 0`
included — generation proceeds and returns a full `height × width`
grid with no failure; at `height = 0` the call does fail, but with an
accidental `TypeError` thrown by the stats computation after the carve
loop, not a construction-time `InvalidInput` rejection. -/
theorem C6_no_validation (p : MazeParams) :
    (1 ≤ p.height →
      createMazeE p = Except.ok (createMaze p) ∧
      (createMaze p).maze.length = p.height ∧
      ∀ row ∈ (createMaze p).maze, row.length = p.width) ∧
    (p.height = 0 → createMazeE p = Except.error ()) := by
  obtain ⟨hs0, hsym0⟩ :=
    carvePhase_grid p.width p.height p.seed (Q.ofRat p.g) (Q.ofRat p.tau)
  obtain ⟨hs1, _⟩ :=
    braidPhase_grid p.width p.height (Q.ofRat p.b)
      (carvePhase p.width p.height p.seed (Q.ofRat p.g) (Q.ofRat p.tau)).tree
      (carvePhase p.width p.height p.seed (Q.ofRat p.g) (Q.ofRat p.tau)).t hs0 hsym0
  exact ⟨fun hH => ⟨createMazeE_ok p hH, hs1.1, hs1.2⟩,
    fun hH => createMazeE_height_zero p hH⟩

/-- Counterexample for C6 as stated: on a `1 × 1` input — far below the
claimed 3-cell minimum — `createMaze` does not reject; it generates and
returns a degenerate maze (an empty carve sequence, `L = 1`, a one-row
grid) with no failure. -/
theorem C6_no_rejection_counterexample :
    createMazeE ⟨1, 1, 0, 0, 0, 0⟩ = Except.ok (createMaze ⟨1, 1, 0, 0, 0, 0⟩) ∧
      (createMaze ⟨1, 1, 0, 0, 0, 0⟩).treeSteps = [] ∧
      (createMaze ⟨1, 1, 0, 0, 0, 0⟩).stats.L = 1 ∧
      (createMaze ⟨1, 1, 0, 0, 0, 0⟩).maze.length = 1 :=
  ⟨createMazeE_ok ⟨1, 1, 0, 0, 0, 0⟩ (by decide), by decide!⟩

/-- Claim C7 (amended): the braid body at one cell — a cell whose
open-degree differs from 1 is untouched; a dead end whose draw is not
`< b` only advances the generator; a dead end passing the draw with no
walled side is skipped; and for the uniformly picked walled side, the
wall pair is cleared and the edit appended exactly when the picked
side's neighbor is in bounds — a pick facing out of the grid is skipped
with both draws consumed (a case the spec's description omits). -/
theorem C7_braid_step (W H : Nat) (b : Q) (st : BraidSt) (x y : Int) :
    (openDeg (gridGet st.maze x y) ≠ 1 → braidCell W H b st x y = st) ∧
    (openDeg (gridGet st.maze x y) = 1 → ((rnd st.t).1.lt b) = false →
      braidCell W H b st x y = { st with t := (rnd st.t).2 }) ∧
    (openDeg (gridGet st.maze x y) = 1 → ((rnd st.t).1.lt b) = true →
      walledSides (gridGet st.maze x y) = [] →
      braidCell W H b st x y = { st with t := (rnd st.t).2 }) ∧
    (openDeg (gridGet st.maze x y) = 1 → ((rnd st.t).1.lt b) = true →
      walledSides (gridGet st.maze x y) ≠ [] →
      ∀ sd : Side,
        sd = (walledSides (gridGet st.maze x y)).getD
          (((rnd (rnd st.t).2).1.mul
            ⟨((walledSides (gridGet st.maze x y)).length : Int), 1⟩).floorNat) Side.n →
        (inb W H (x + (sideDelta sd).1) (y + (sideDelta sd).2) = true →
          braidCell W H b st x y =
            { maze := clearPair st.maze x y sd
              edits := st.edits ++ [⟨x, y, x + (sideDelta sd).1, y + (sideDelta sd).2⟩]
              t := (rnd (rnd st.t).2).2 }) ∧
        (inb W H (x + (sideDelta sd).1) (y + (sideDelta sd).2) = false →
          braidCell W H b st x y = { st with t := (rnd (rnd st.t).2).2 })) := by
  refine ⟨?_, ?_, ?_, ?_⟩
  · intro h
    unfold braidCell
    dsimp only
    rw [if_neg h]
  · intro h1 h2
    unfold braidCell
    dsimp only
    rw [if_pos h1, h2]
    rfl
  · intro h1 h2 h3
    unfold braidCell
    dsimp only
    rw [if_pos h1, h2, if_pos rfl, if_pos h3]
  · intro h1 h2 h3 sd hsd
    unfold braidCell
    dsimp only
    rw [if_pos h1, h2, if_pos rfl, if_neg h3, ← hsd]
    refine ⟨fun hin => ?_, fun hout => ?_⟩
    · rw [if_pos hin]
      rfl
    · rw [hout]
      rfl

/-- Witness for C7 at a concrete dead end whose pick faces out of the
grid: in a `1 × 1` grid whose only cell has its east flag cleared, the
braid body consumes both draws and changes nothing else. -/
theorem C7_braid_step_witness :
    braidCell 1 1 ⟨1, 1⟩ ⟨[[⟨0, 0, true, true, false, true⟩]], [], 0⟩ 0 0 =
      { maze := [[⟨0, 0, true, true, false, true⟩]], edits := [],
        t := (rnd (rnd 0).2).2 } :=
  ((C7_braid_step 1 1 ⟨1, 1⟩ ⟨[[⟨0, 0, true, true, false, true⟩]], [], 0⟩ 0 0).2.2.2
    (by decide) (by decide) (by decide) Side.n (by decide)).2 (by decide)

/-- Counterexample for C7 as stated: at `width=3, height=3, seed=0,
g=0.3, b=0.5, tau=0.4` the dead end at `(2, 2)` passes its draw and
picks its east side, which faces out of the grid — the source records
no edit at all, while the spec-described pass (`braidPhaseClaimed`,
which skips only zero-walled cells) would record that edit. -/
theorem C7_skip_counterexample :
    (createMaze ⟨3, 3, 0, 3 / 10, 1 / 2, 2 / 5⟩).braidEdits = [] ∧
      (braidPhaseClaimed 3 3 (Q.ofRat (1 / 2))
          (carvePhase 3 3 0 (Q.ofRat (3 / 10)) (Q.ofRat (2 / 5))).tree
          (carvePhase 3 3 0 (Q.ofRat (3 / 10)) (Q.ofRat (2 / 5))).t).edits =
        [⟨2, 2, 3, 2⟩] := by
  decide!

/-- Claim C8 (code bug): the orchestrator's recomputation destructures
a field `steps` from `createMaze`'s result, but the `MazeResult` record
has no such field (the carve sequence is called `treeSteps`), so the
destructured value is `undefined` and the unconditional `steps.length`
read throws on every recomputation. -/
theorem C8_missing_steps_field :
    ("steps" ∈ mazeViewReads ∧ "steps" ∉ mazeResultFields) ∧
      "treeSteps" ∈ mazeResultFields := by
  decide

/-- Claim C9 (code bug): both read paths tolerate a missing key and
malformed JSON, and the settings write path swallows storage failures,
but `saveAll` — the saved-maze write path — has no `try`/`catch`: on a
store whose `setItem` throws it propagates the failure to the caller. -/
theorem C9_saveAll_propagates :
    (∀ (thr : Bool), loadSettings ⟨none, thr⟩ = none ∧
      loadSettings ⟨some RawVal.malformed, thr⟩ = none ∧
      loadSaved ⟨none, thr⟩ = [] ∧
      loadSaved ⟨some RawVal.malformed, thr⟩ = []) ∧
    (∀ (s : Storage AppSettings) (v : AppSettings),
      saveSettings s v =
        if s.setThrows then s else ⟨some (RawVal.valid v), s.setThrows⟩) ∧
    (∀ (l : List SavedMaze), saveAll ⟨none, true⟩ l = Except.error ()) := by
  refine ⟨fun thr => ⟨rfl, rfl, rfl, rfl⟩, ?_, fun l => rfl⟩
  rintro ⟨c, thr⟩ v
  cases thr <;> rfl

/-- Claim C10 (amended): with `lockSize` off and odd current
dimensions, saving under a fresh id and loading that id back restores
exactly the six saved parameters and selects the entry; and on a
non-throwing store the saved list written by `saveAll` reads back
unchanged through `loadSaved`. -/
theorem C10_roundtrip (st : AppState) (stor : Storage (List SavedMaze))
    (idv : String) (now : Nat)
    (hlock : st.lockSize = false)
    (hw : st.width % 2 = 1) (hh : st.height % 2 = 1)
    (hfresh : ∀ m ∈ st.saved, (m.id == idv) = false)
    (hok : stor.setThrows = false) :
    saveAll stor (handleSave st idv now).saved =
        Except.ok ⟨some (RawVal.valid (handleSave st idv now).saved), stor.setThrows⟩ ∧
      loadSaved ⟨some (RawVal.valid (handleSave st idv now).saved), stor.setThrows⟩ =
        (handleSave st idv now).saved ∧
      (handleLoad (handleSave st idv now) idv).width = st.width ∧
      (handleLoad (handleSave st idv now) idv).height = st.height ∧
      (handleLoad (handleSave st idv now) idv).seed = st.seed ∧
      (handleLoad (handleSave st idv now) idv).g = st.g ∧
      (handleLoad (handleSave st idv now) idv).b = st.b ∧
      (handleLoad (handleSave st idv now) idv).tau = st.tau ∧
      (handleLoad (handleSave st idv now) idv).selectedId = some idv := by
  have hsave : saveAll stor (handleSave st idv now).saved =
      Except.ok ⟨some (RawVal.valid (handleSave st idv now).saved), stor.setThrows⟩ := by
    unfold saveAll setItem
    rw [hok]
    rfl
  have hfind : (handleSave st idv now).saved.find? (fun m => m.id == idv) =
      some ⟨idv,
        if st.saveName.trim = "" then "Maze " ++ toString (st.saved.length + 1)
          else st.saveName.trim,
        ⟨st.width, st.height, st.seed, st.g, st.b, st.tau⟩, now⟩ :=
    find?_append_fresh st.saved _ _ hfresh (by simp)
  have hload := handleLoad_found (handleSave st idv now) idv _ hfind hlock hw hh
  rw [hload]
  exact ⟨hsave, rfl, rfl, rfl, rfl, rfl, rfl, rfl, rfl⟩

/-- Witness for C10 at a concrete state (`width=7, height=9`, lock off,
no saved entries) on a non-throwing store. -/
theorem C10_roundtrip_witness :
    ((⟨7, 9, 1, 1 / 2, 1 / 4, 2 / 5, false, [], none, ""⟩ : AppState).lockSize = false ∧
      (⟨7, 9, 1, 1 / 2, 1 / 4, 2 / 5, false, [], none, ""⟩ : AppState).width % 2 = 1 ∧
      (⟨7, 9, 1, 1 / 2, 1 / 4, 2 / 5, false, [], none, ""⟩ : AppState).height % 2 = 1) ∧
      (handleLoad (handleSave ⟨7, 9, 1, 1 / 2, 1 / 4, 2 / 5, false, [], none, ""⟩ "a" 0)
        "a").width = 7 ∧
      (handleLoad (handleSave ⟨7, 9, 1, 1 / 2, 1 / 4, 2 / 5, false, [], none, ""⟩ "a" 0)
        "a").height = 9 ∧
      (handleLoad (handleSave ⟨7, 9, 1, 1 / 2, 1 / 4, 2 / 5, false, [], none, ""⟩ "a" 0)
        "a").selectedId = some "a" ∧
      saveAll ⟨none, false⟩
          (handleSave ⟨7, 9, 1, 1 / 2, 1 / 4, 2 / 5, false, [], none, ""⟩ "a" 0).saved =
        Except.ok ⟨some (RawVal.valid
          (handleSave ⟨7, 9, 1, 1 / 2, 1 / 4, 2 / 5, false, [], none, ""⟩ "a" 0).saved),
          false⟩ := by
  have h := C10_roundtrip ⟨7, 9, 1, 1 / 2, 1 / 4, 2 / 5, false, [], none, ""⟩ ⟨none, false⟩
    "a" 0 rfl (by decide) (by decide) (by intro m hm; cases hm) rfl
  exact ⟨⟨rfl, by decide, by decide⟩, h.2.2.1, h.2.2.2.1, h.2.2.2.2.2.2.2.2, h.1⟩

/-- Counterexample for C10 as stated: an entry saved with unequal
dimensions (`7 × 9`) is loaded after `lockSize` is switched on — the
load does not restore its width: the height's lock write overrides it,
leaving `width = 9 ≠ 7`. -/
theorem C10_lockSize_counterexample :
    ((handleSave ⟨7, 9, 1, 1 / 2, 1 / 4, 2 / 5, false, [], none, ""⟩ "a" 0).saved.map
        (fun m => m.params.width) = [7]) ∧
      (handleLoad
          { handleSave ⟨7, 9, 1, 1 / 2, 1 / 4, 2 / 5, false, [], none, ""⟩ "a" 0 with
            lockSize := true } "a").width = 9 := by
  decide

end MazePWA
